import Mathlib

/-!
# Security role-mapping request builders of package opensearchapi

A shallow embedding of the four request builders

* `api.security.create.rule_mapping.go`  (`CreateSecurityRoleMappingRequest`)
* `api.security.get.rule_mappings.go`    (`GetSecurityRoleMappingRequest`)
* `api.security.patch.rule_mapping.go`   (`PatchSecurityRoleMappingRequest`)
* `api.security.patch.rule_mappings.go`  (`BulkUpsertSecurityRuleMappingRequest`)

Conventions of the embedding.

* A Go `string` is a sequence of bytes.  It is represented by a Lean `String`
  holding one character per byte (the character whose code is the byte), so
  that ASCII text is represented by itself.
* A Go map is represented by the list of its entries.  For a map received from
  the caller the listing order is the order in which a `range` loop visits the
  entries; for the map `params`, built inside `Do`, the visiting order is
  chosen by the argument `rangeOrder` (Go leaves it unspecified).
* A nilable value (`http.Header`, `io.Reader`, `context.Context`, a pointer) is
  an `Option`, with `none` for `nil`.
* The two calls that leave the package, `newRequest` and `Transport.Perform`,
  are nodes of the interaction tree `Prog`; `Prog.run` executes a tree against
  a concrete `newRequest` and a concrete (stateful) transport.
-/

namespace OpenSearchAPI

/-! ## Go values -/

/-- Go `error` value (non-nil). -/
structure GoError where
  msg : String
  deriving DecidableEq, Repr

/-- Non-nil `io.Reader`, identified by the bytes it yields. -/
structure Reader where
  data : String
  deriving DecidableEq, Repr

/-- Non-nil `context.Context`. -/
structure Context where
  id : Nat
  deriving DecidableEq, Repr

/-- Go map with string keys, listed entry by entry. -/
abbrev GoMap (α : Type) := List (String × α)

/-- Go `http.Header`, that is `map[string][]string` (non-nil). -/
abbrev Header := GoMap (List String)

/-- Go `url.Values`, that is `map[string][]string` (non-nil). -/
abbrev Values := GoMap (List String)

/-- Map read `m[k]` with the comma-ok form: `none` when the key is absent. -/
def MapIndex {α : Type} : GoMap α → String → Option α
  | [], _ => none
  | (k', v) :: m, k => if k' = k then some v else MapIndex m k

/-- Map write `m[k] = v`: the entry of `k` is overwritten, or created. -/
def MapAssign {α : Type} : GoMap α → String → α → GoMap α
  | [], k, v => [(k, v)]
  | (k', v') :: m, k, v => if k' = k then (k, v) :: m else (k', v') :: MapAssign m k v

/-- Keys of a map, in listing order. -/
def MapKeys {α : Type} (m : GoMap α) : List String := m.map Prod.fst

/-- Read `m[k]` of a `map[string][]string`: the nil slice when the key is absent. -/
def MapValues (m : GoMap (List String)) (k : String) : List String :=
  (MapIndex m k).getD []

/-- Go `len` of a nilable header map. -/
def headerLen : Option Header → Nat
  | none => 0
  | some h => h.length

/-- Go `strings.Join(elems, sep)`. -/
def Join (elems : List String) (sep : String) : String := sep.intercalate elems

/-! ## Standard library: `net/textproto`, `net/http` -/

/-- Go `validHeaderFieldByte`: the token characters of RFC 7230, that is
letters, digits and the fifteen marks listed below by their byte codes. -/
def validHeaderFieldByte (c : Char) : Bool :=
  ('a' ≤ c && c ≤ 'z') || ('A' ≤ c && c ≤ 'Z') || ('0' ≤ c && c ≤ '9') ||
    [33, 35, 36, 37, 38, 39, 42, 43, 45, 46, 94, 95, 96, 124, 126].contains c.toNat

/-- The rewriting loop of Go `canonicalMIMEHeaderKey`: upper case for the first
letter and for a letter after a dash, lower case for every other letter. -/
def canonicalLoop : Bool → List Char → List Char
  | _, [] => []
  | upper, c :: cs =>
    let c1 :=
      if upper && ('a' ≤ c && c ≤ 'z') then Char.ofNat (c.toNat - 32)
      else if !upper && ('A' ≤ c && c ≤ 'Z') then Char.ofNat (c.toNat + 32)
      else c
    c1 :: canonicalLoop (c1 == '-') cs

/-- Go `textproto.CanonicalMIMEHeaderKey`: a key holding a byte that is not a
token character (a space included) is returned unchanged, any other key is
rewritten by `canonicalLoop`. -/
def CanonicalMIMEHeaderKey (s : String) : String :=
  if s.data.all validHeaderFieldByte then ⟨canonicalLoop true s.data⟩ else s

/-- Go `http.Header.Add`: append `value` to the values of the canonical key. -/
def Header.Add (h : Header) (key value : String) : Header :=
  let key := CanonicalMIMEHeaderKey key
  MapAssign h key (MapValues h key ++ [value])

/-- Go `http.Header.Set`: the canonical key gets the single value `value`. -/
def Header.Set (h : Header) (key value : String) : Header :=
  MapAssign h (CanonicalMIMEHeaderKey key) [value]

/-! ## Standard library: `net/url` -/

/-- Go `shouldEscape(c, encodeQueryComponent)`: everything is escaped but
letters, digits and the marks `- _ . ~`. -/
def shouldEscape (c : Char) : Bool :=
  if ('a' ≤ c && c ≤ 'z') || ('A' ≤ c && c ≤ 'Z') || ('0' ≤ c && c ≤ '9') then false
  else if c = '-' || c = '_' || c = '.' || c = '~' then false
  else true

/-- The table `upperhex` of Go `net/url`. -/
def upperhex : List Char := "0123456789ABCDEF".data

/-- What Go `escape(s, encodeQueryComponent)` writes for one byte. -/
def escapeByte (c : Char) : List Char :=
  if shouldEscape c then
    if c = ' ' then ['+']
    else ['%', upperhex.getD (c.toNat / 16 % 16) '0', upperhex.getD (c.toNat % 16) '0']
  else [c]

/-- Go `url.QueryEscape`. -/
def QueryEscape (s : String) : String := ⟨s.data.flatMap escapeByte⟩

/-- Go `ishex`. -/
def ishex (c : Char) : Bool :=
  ('0' ≤ c && c ≤ '9') || ('a' ≤ c && c ≤ 'f') || ('A' ≤ c && c ≤ 'F')

/-- Go `unhex`. -/
def unhex (c : Char) : Nat :=
  if '0' ≤ c && c ≤ '9' then c.toNat - 48
  else if 'a' ≤ c && c ≤ 'f' then c.toNat - 97 + 10
  else if 'A' ≤ c && c ≤ 'F' then c.toNat - 65 + 10
  else 0

/-- Go `unescape(s, encodeQueryComponent)` (that is `url.QueryUnescape`):
`none` stands for the `EscapeError` of a malformed percent sequence. -/
def QueryUnescape : List Char → Option (List Char)
  | [] => some []
  | c :: rest =>
    if c = '%' then
      match rest with
      | a :: b :: rest2 =>
        if ishex a && ishex b then
          (QueryUnescape rest2).map (Char.ofNat (unhex a * 16 + unhex b) :: ·)
        else none
      | _ => none
    else if c = '+' then (QueryUnescape rest).map (' ' :: ·)
    else (QueryUnescape rest).map (c :: ·)

/-- Go `strings.Cut(s, sep)` for a one-byte separator: the text before the
first separator and the text after it (all of `s` and nothing when there is
no separator). -/
def Cut (sep : Char) : List Char → List Char × List Char
  | [] => ([], [])
  | c :: cs => if c = sep then ([], cs) else ((Cut sep cs).1.cons c, (Cut sep cs).2)

/-- The pieces that the loop of Go `parseQuery` cuts off at each `&`. -/
def ampersandPieces : List Char → List (List Char)
  | [] => []
  | c :: cs =>
    if c = '&' then [] :: ampersandPieces cs
    else
      match ampersandPieces cs with
      | [] => [[c]]
      | p :: ps => (c :: p) :: ps

/-- One round of the loop of Go `parseQuery` on the piece `key`: a piece with
a semicolon, an empty piece or a piece that cannot be unescaped is skipped. -/
def parseQueryPiece (m : Values) (key : List Char) : Values :=
  if key.contains ';' then m
  else if key.isEmpty then m
  else
    match QueryUnescape (Cut '=' key).1, QueryUnescape (Cut '=' key).2 with
    | some k, some v => MapAssign m ⟨k⟩ (MapValues m ⟨k⟩ ++ [⟨v⟩])
    | _, _ => m

/-- Uniform resource locator: the two fields of Go `url.URL` that matter here. -/
structure URL where
  Path : String
  RawQuery : String
  deriving DecidableEq, Repr

/-- Go `(*url.URL).Query`: `ParseQuery(u.RawQuery)` with the error dropped. -/
def URL.Query (u : URL) : Values :=
  (ampersandPieces u.RawQuery.data).foldl parseQueryPiece []

/-- Go `url.Values.Set`. -/
def Values.Set (v : Values) (key value : String) : Values :=
  MapAssign v key [value]

/-- Byte-wise lexicographic comparison, the order of Go `slices.Sort` on strings. -/
def bytesLE : List Char → List Char → Bool
  | [], _ => true
  | _ :: _, [] => false
  | a :: as, b :: bs =>
    if a.toNat < b.toNat then true
    else if b.toNat < a.toNat then false
    else bytesLE as bs

/-- Order on keys used when sorting. -/
def keyLE (a b : String) : Prop := bytesLE a.data b.data = true

instance : DecidableRel keyLE :=
  fun a b => inferInstanceAs (Decidable (bytesLE a.data b.data = true))

/-- Go `url.Values.Encode`: the pairs `key=value`, both escaped, joined by
`&`, the keys in ascending order and the values of a key in their order. -/
def Values.Encode (v : Values) : String :=
  if v.length = 0 then ""
  else
    let keys := (MapKeys v).insertionSort keyLE
    keys.foldl
      (fun buf k =>
        let vs := MapValues v k
        let keyEscaped := QueryEscape k
        vs.foldl
          (fun buf x =>
            let buf1 := if buf.length > 0 then buf ++ "&" else buf
            buf1 ++ keyEscaped ++ "=" ++ QueryEscape x)
          buf)
      ""

/-! ## Requests, responses and the calls leaving the package -/

/-- Go `http.Request`: the fields that the builders read or write. -/
structure Request where
  Method : String
  URL : URL
  Header : Option Header
  Body : Option Reader
  ctx : Option Context
  deriving DecidableEq, Repr

/-- Go `(*http.Request).WithContext`: a copy of the request carrying `ctx`. -/
def Request.WithContext (req : Request) (ctx : Context) : Request :=
  { req with ctx := some ctx }

/-- Go `http.Response` as returned by the transport: the fields that `Do` reads. -/
structure HTTPResponse where
  StatusCode : Int
  Body : Option Reader
  Header : Option Header
  deriving DecidableEq, Repr

/-- Modelled from the spec: the type `Response` of the package, declared outside
the files at hand; the spec describes it as a uniform envelope of status code,
raw body stream and header collection. -/
structure Response where
  StatusCode : Int
  Body : Option Reader
  Header : Option Header
  deriving DecidableEq, Repr

/-- Go `http.MethodGet`. -/
def MethodGet : String := "GET"

/-- Go `http.MethodPut`. -/
def MethodPut : String := "PUT"

/-- Go `http.MethodPatch`. -/
def MethodPatch : String := "PATCH"

/-- Interaction of `Do` with the code outside the four files: a call of the
package function `newRequest(method, path, body)`, a call of
`transport.Perform(req)`, each continued with the outcome of the call, or the
return of `Do` with its pair of results. -/
inductive Prog where
  | newRequest (method path : String) (body : Option Reader)
      (k : Except GoError Request → Prog)
  | perform (req : Request) (k : Except GoError HTTPResponse → Prog)
  | ret (response : Option Response) (err : Option GoError)

/-- Arguments of the call of `newRequest` that the program starts with. -/
def Prog.newRequestArgs : Prog → Option (String × String × Option Reader)
  | .newRequest method path body _ => some (method, path, body)
  | _ => none

/-- The program after `newRequest` has returned `out`. -/
def Prog.afterNewRequest : Prog → Except GoError Request → Prog
  | .newRequest _ _ _ k, out => k out
  | p, _ => p

/-- Request of the call of `transport.Perform` that the program starts with. -/
def Prog.performArg : Prog → Option Request
  | .perform req _ => some req
  | _ => none

/-- The program after `transport.Perform` has returned `out`. -/
def Prog.afterPerform : Prog → Except GoError HTTPResponse → Prog
  | .perform _ k, out => k out
  | p, _ => p

/-- The pair returned, when the program is a return. -/
def Prog.returned : Prog → Option (Option Response × Option GoError)
  | .ret response err => some (response, err)
  | _ => none

/-- The interface `Transport` of the package, declared outside the files at
hand: one method `Perform`, here a transition of the state `σ` of the
transport that yields a response or an error. -/
structure Transport (σ : Type) where
  Perform : σ → Request → Except GoError HTTPResponse × σ

/-- What a run of `Do` leaves behind: the pair returned, the state of the
transport, and the calls of `newRequest` and of `Perform` in order. -/
structure Run (σ : Type) where
  response : Option Response
  err : Option GoError
  state : σ
  newRequestCalls : List (String × String × Option Reader)
  performCalls : List Request

/-- Execution of a program against a function `newRequest` and a transport in
state `s`. -/
def Prog.run {σ : Type} (newRequest : String → String → Option Reader → Except GoError Request)
    (transport : Transport σ) : Prog → σ → Run σ
  | .newRequest method path body k, s =>
    let out := Prog.run newRequest transport (k (newRequest method path body)) s
    { out with newRequestCalls := (method, path, body) :: out.newRequestCalls }
  | .perform req k, s =>
    let out := Prog.run newRequest transport (k (transport.Perform s req).1) (transport.Perform s req).2
    { out with performCalls := req :: out.performCalls }
  | .ret response err, s =>
    { response := response, err := err, state := s, newRequestCalls := [], performCalls := [] }

/-! ## api.security.create.rule_mapping.go -/

/-- CreateSecurityRoleMappingRequest configures the Create Security Rule Mapping API request. -/
structure CreateSecurityRoleMappingRequest where
  Name : String := ""
  Body : Option Reader := none
  Pretty : Bool := false
  Human : Bool := false
  ErrorTrace : Bool := false
  FilterPath : List String := []
  Header : Option Header := none
  ctx : Option Context := none
  deriving DecidableEq, Repr

/-- Do will execute the request and returns response or error. -/
def CreateSecurityRoleMappingRequest.Do (r : CreateSecurityRoleMappingRequest)
    (ctx : Option Context) (rangeOrder : GoMap String → GoMap String) : Prog :=
  let method := MethodPut
  let path := "/_plugins/_security/api/rolesmapping/" ++ r.Name
  let params : GoMap String := []
  let params := if r.Pretty then MapAssign params "pretty" "true" else params
  let params := if r.Human then MapAssign params "human" "true" else params
  let params := if r.ErrorTrace then MapAssign params "error_trace" "true" else params
  let params :=
    if r.FilterPath.length > 0 then MapAssign params "filter_path" (Join r.FilterPath ",")
    else params
  Prog.newRequest method path r.Body fun out =>
    match out with
    | .error err => Prog.ret none (some err)
    | .ok req =>
      let req :=
        if params.length > 0 then
          let q := URL.Query req.URL
          let q := (rangeOrder params).foldl (fun q kv => Values.Set q kv.1 kv.2) q
          { req with URL := { req.URL with RawQuery := Values.Encode q } }
        else req
      let req :=
        if headerLen r.Header > 0 then
          if headerLen req.Header = 0 then { req with Header := r.Header }
          else
            { req with
              Header := some ((r.Header.getD []).foldl
                (fun h kvv => kvv.2.foldl (fun h v => Header.Add h kvv.1 v) h)
                (req.Header.getD [])) }
        else req
      let req :=
        match ctx with
        | some c => Request.WithContext req c
        | none => req
      Prog.perform req fun out =>
        match out with
        | .error err => Prog.ret none (some err)
        | .ok res =>
          Prog.ret (some { StatusCode := res.StatusCode, Body := res.Body, Header := res.Header })
            none

/-- WithContext sets the request context. -/
def CreateSecurityRoleMapping.WithContext (v : Option Context)
    (r : CreateSecurityRoleMappingRequest) : CreateSecurityRoleMappingRequest :=
  { r with ctx := v }

/-- WithPretty makes the response body pretty-printed. -/
def CreateSecurityRoleMapping.WithPretty
    (r : CreateSecurityRoleMappingRequest) : CreateSecurityRoleMappingRequest :=
  { r with Pretty := true }

/-- WithHuman makes statistical values human-readable. -/
def CreateSecurityRoleMapping.WithHuman
    (r : CreateSecurityRoleMappingRequest) : CreateSecurityRoleMappingRequest :=
  { r with Human := true }

/-- WithErrorTrace includes the stack trace for errors in the response body. -/
def CreateSecurityRoleMapping.WithErrorTrace
    (r : CreateSecurityRoleMappingRequest) : CreateSecurityRoleMappingRequest :=
  { r with ErrorTrace := true }

/-- WithFilterPath filters the properties of the response body. -/
def CreateSecurityRoleMapping.WithFilterPath (v : List String)
    (r : CreateSecurityRoleMappingRequest) : CreateSecurityRoleMappingRequest :=
  { r with FilterPath := v }

/-- WithHeader adds the headers to the HTTP request. -/
def CreateSecurityRoleMapping.WithHeader (h : GoMap String)
    (r : CreateSecurityRoleMappingRequest) : CreateSecurityRoleMappingRequest :=
  let r := if r.Header = none then { r with Header := some [] } else r
  { r with Header := some (h.foldl (fun hd kv => Header.Add hd kv.1 kv.2) (r.Header.getD [])) }

/-- WithOpaqueID adds the X-Opaque-Id header to the HTTP request. -/
def CreateSecurityRoleMapping.WithOpaqueID (s : String)
    (r : CreateSecurityRoleMappingRequest) : CreateSecurityRoleMappingRequest :=
  let r := if r.Header = none then { r with Header := some [] } else r
  { r with Header := some (Header.Set (r.Header.getD []) "X-Opaque-Id" s) }

/-- The function built by `newCreateSecurityRoleMappingFunc(t)`: the options
are applied in order to the request made of `name` and `body`, then `Do` runs
with the context of the request. -/
def newCreateSecurityRoleMappingFunc (name : String) (body : Option Reader)
    (o : List (CreateSecurityRoleMappingRequest → CreateSecurityRoleMappingRequest))
    (rangeOrder : GoMap String → GoMap String) : Prog :=
  let r : CreateSecurityRoleMappingRequest := { Name := name, Body := body }
  let r := o.foldl (fun r f => f r) r
  r.Do r.ctx rangeOrder

/-! ## api.security.get.rule_mappings.go -/

/-- GetSecurityRoleMappingRequest configures the Get Security Rule Mapping API request. -/
structure GetSecurityRoleMappingRequest where
  Name : String := ""
  Pretty : Bool := false
  Human : Bool := false
  ErrorTrace : Bool := false
  FilterPath : List String := []
  Header : Option Header := none
  ctx : Option Context := none
  deriving DecidableEq, Repr

/-- Do will execute the request and returns response or error. -/
def GetSecurityRoleMappingRequest.Do (r : GetSecurityRoleMappingRequest)
    (ctx : Option Context) (rangeOrder : GoMap String → GoMap String) : Prog :=
  let method := MethodGet
  let path := "/_plugins/_security/api/rolesmapping/" ++ r.Name
  let params : GoMap String := []
  let params := if r.Pretty then MapAssign params "pretty" "true" else params
  let params := if r.Human then MapAssign params "human" "true" else params
  let params := if r.ErrorTrace then MapAssign params "error_trace" "true" else params
  let params :=
    if r.FilterPath.length > 0 then MapAssign params "filter_path" (Join r.FilterPath ",")
    else params
  Prog.newRequest method path none fun out =>
    match out with
    | .error err => Prog.ret none (some err)
    | .ok req =>
      let req :=
        if params.length > 0 then
          let q := URL.Query req.URL
          let q := (rangeOrder params).foldl (fun q kv => Values.Set q kv.1 kv.2) q
          { req with URL := { req.URL with RawQuery := Values.Encode q } }
        else req
      let req :=
        if headerLen r.Header > 0 then
          if headerLen req.Header = 0 then { req with Header := r.Header }
          else
            { req with
              Header := some ((r.Header.getD []).foldl
                (fun h kvv => kvv.2.foldl (fun h v => Header.Add h kvv.1 v) h)
                (req.Header.getD [])) }
        else req
      let req :=
        match ctx with
        | some c => Request.WithContext req c
        | none => req
      Prog.perform req fun out =>
        match out with
        | .error err => Prog.ret none (some err)
        | .ok res =>
          Prog.ret (some { StatusCode := res.StatusCode, Body := res.Body, Header := res.Header })
            none

/-- WithContext sets the request context. -/
def GetSecurityRoleMapping.WithContext (v : Option Context)
    (r : GetSecurityRoleMappingRequest) : GetSecurityRoleMappingRequest :=
  { r with ctx := v }

/-- WithPretty makes the response body pretty-printed. -/
def GetSecurityRoleMapping.WithPretty
    (r : GetSecurityRoleMappingRequest) : GetSecurityRoleMappingRequest :=
  { r with Pretty := true }

/-- WithHuman makes statistical values human-readable. -/
def GetSecurityRoleMapping.WithHuman
    (r : GetSecurityRoleMappingRequest) : GetSecurityRoleMappingRequest :=
  { r with Human := true }

/-- WithErrorTrace includes the stack trace for errors in the response body. -/
def GetSecurityRoleMapping.WithErrorTrace
    (r : GetSecurityRoleMappingRequest) : GetSecurityRoleMappingRequest :=
  { r with ErrorTrace := true }

/-- WithFilterPath filters the properties of the response body. -/
def GetSecurityRoleMapping.WithFilterPath (v : List String)
    (r : GetSecurityRoleMappingRequest) : GetSecurityRoleMappingRequest :=
  { r with FilterPath := v }

/-- WithHeader adds the headers to the HTTP request. -/
def GetSecurityRoleMapping.WithHeader (h : GoMap String)
    (r : GetSecurityRoleMappingRequest) : GetSecurityRoleMappingRequest :=
  let r := if r.Header = none then { r with Header := some [] } else r
  { r with Header := some (h.foldl (fun hd kv => Header.Add hd kv.1 kv.2) (r.Header.getD [])) }

/-- WithOpaqueID adds the X-Opaque-Id header to the HTTP request. -/
def GetSecurityRoleMapping.WithOpaqueID (s : String)
    (r : GetSecurityRoleMappingRequest) : GetSecurityRoleMappingRequest :=
  let r := if r.Header = none then { r with Header := some [] } else r
  { r with Header := some (Header.Set (r.Header.getD []) "X-Opaque-Id" s) }

/-- The function built by `newGetSecurityRoleMappingFunc(t)`: the options
are applied in order to the request made of `name`, then `Do` runs
with the context of the request. -/
def newGetSecurityRoleMappingFunc (name : String)
    (o : List (GetSecurityRoleMappingRequest → GetSecurityRoleMappingRequest))
    (rangeOrder : GoMap String → GoMap String) : Prog :=
  let r : GetSecurityRoleMappingRequest := { Name := name }
  let r := o.foldl (fun r f => f r) r
  r.Do r.ctx rangeOrder

/-! ## api.security.patch.rule_mapping.go -/

/-- PatchSecurityRoleMappingRequest configures the Patch Security Rule Mapping API request. -/
structure PatchSecurityRoleMappingRequest where
  Name : String := ""
  Body : Option Reader := none
  Pretty : Bool := false
  Human : Bool := false
  ErrorTrace : Bool := false
  FilterPath : List String := []
  Header : Option Header := none
  ctx : Option Context := none
  deriving DecidableEq, Repr

/-- Do will execute the request and returns response or error. -/
def PatchSecurityRoleMappingRequest.Do (r : PatchSecurityRoleMappingRequest)
    (ctx : Option Context) (rangeOrder : GoMap String → GoMap String) : Prog :=
  let method := MethodPatch
  let path := "/_plugins/_security/api/rolesmapping/" ++ r.Name
  let params : GoMap String := []
  let params := if r.Pretty then MapAssign params "pretty" "true" else params
  let params := if r.Human then MapAssign params "human" "true" else params
  let params := if r.ErrorTrace then MapAssign params "error_trace" "true" else params
  let params :=
    if r.FilterPath.length > 0 then MapAssign params "filter_path" (Join r.FilterPath ",")
    else params
  Prog.newRequest method path r.Body fun out =>
    match out with
    | .error err => Prog.ret none (some err)
    | .ok req =>
      let req :=
        if params.length > 0 then
          let q := URL.Query req.URL
          let q := (rangeOrder params).foldl (fun q kv => Values.Set q kv.1 kv.2) q
          { req with URL := { req.URL with RawQuery := Values.Encode q } }
        else req
      let req :=
        if headerLen r.Header > 0 then
          if headerLen req.Header = 0 then { req with Header := r.Header }
          else
            { req with
              Header := some ((r.Header.getD []).foldl
                (fun h kvv => kvv.2.foldl (fun h v => Header.Add h kvv.1 v) h)
                (req.Header.getD [])) }
        else req
      let req :=
        match ctx with
        | some c => Request.WithContext req c
        | none => req
      Prog.perform req fun out =>
        match out with
        | .error err => Prog.ret none (some err)
        | .ok res =>
          Prog.ret (some { StatusCode := res.StatusCode, Body := res.Body, Header := res.Header })
            none

/-- WithContext sets the request context. -/
def PatchSecurityRoleMapping.WithContext (v : Option Context)
    (r : PatchSecurityRoleMappingRequest) : PatchSecurityRoleMappingRequest :=
  { r with ctx := v }

/-- WithPretty makes the response body pretty-printed. -/
def PatchSecurityRoleMapping.WithPretty
    (r : PatchSecurityRoleMappingRequest) : PatchSecurityRoleMappingRequest :=
  { r with Pretty := true }

/-- WithHuman makes statistical values human-readable. -/
def PatchSecurityRoleMapping.WithHuman
    (r : PatchSecurityRoleMappingRequest) : PatchSecurityRoleMappingRequest :=
  { r with Human := true }

/-- WithErrorTrace includes the stack trace for errors in the response body. -/
def PatchSecurityRoleMapping.WithErrorTrace
    (r : PatchSecurityRoleMappingRequest) : PatchSecurityRoleMappingRequest :=
  { r with ErrorTrace := true }

/-- WithFilterPath filters the properties of the response body. -/
def PatchSecurityRoleMapping.WithFilterPath (v : List String)
    (r : PatchSecurityRoleMappingRequest) : PatchSecurityRoleMappingRequest :=
  { r with FilterPath := v }

/-- WithHeader adds the headers to the HTTP request. -/
def PatchSecurityRoleMapping.WithHeader (h : GoMap String)
    (r : PatchSecurityRoleMappingRequest) : PatchSecurityRoleMappingRequest :=
  let r := if r.Header = none then { r with Header := some [] } else r
  { r with Header := some (h.foldl (fun hd kv => Header.Add hd kv.1 kv.2) (r.Header.getD [])) }

/-- WithOpaqueID adds the X-Opaque-Id header to the HTTP request. -/
def PatchSecurityRoleMapping.WithOpaqueID (s : String)
    (r : PatchSecurityRoleMappingRequest) : PatchSecurityRoleMappingRequest :=
  let r := if r.Header = none then { r with Header := some [] } else r
  { r with Header := some (Header.Set (r.Header.getD []) "X-Opaque-Id" s) }

/-- The function built by `newPatchSecurityRoleMappingFunc(t)`: the options
are applied in order to the request made of `name` and `body`, then `Do` runs
with the context of the request. -/
def newPatchSecurityRoleMappingFunc (name : String) (body : Option Reader)
    (o : List (PatchSecurityRoleMappingRequest → PatchSecurityRoleMappingRequest))
    (rangeOrder : GoMap String → GoMap String) : Prog :=
  let r : PatchSecurityRoleMappingRequest := { Name := name, Body := body }
  let r := o.foldl (fun r f => f r) r
  r.Do r.ctx rangeOrder

/-! ## api.security.patch.rule_mappings.go -/

/-- BulkUpsertSecurityRuleMappingRequest configures the BulkUpsert Security Rule Mapping API request. -/
structure BulkUpsertSecurityRuleMappingRequest where
  Name : String := ""
  Body : Option Reader := none
  Pretty : Bool := false
  Human : Bool := false
  ErrorTrace : Bool := false
  FilterPath : List String := []
  Header : Option Header := none
  ctx : Option Context := none
  deriving DecidableEq, Repr

/-- Do will execute the request and returns response or error. -/
def BulkUpsertSecurityRuleMappingRequest.Do (r : BulkUpsertSecurityRuleMappingRequest)
    (ctx : Option Context) (rangeOrder : GoMap String → GoMap String) : Prog :=
  let method := MethodPatch
  let path := "/_plugins/_security/api/rolesmapping/"
  let params : GoMap String := []
  let params := if r.Pretty then MapAssign params "pretty" "true" else params
  let params := if r.Human then MapAssign params "human" "true" else params
  let params := if r.ErrorTrace then MapAssign params "error_trace" "true" else params
  let params :=
    if r.FilterPath.length > 0 then MapAssign params "filter_path" (Join r.FilterPath ",")
    else params
  Prog.newRequest method path r.Body fun out =>
    match out with
    | .error err => Prog.ret none (some err)
    | .ok req =>
      let req :=
        if params.length > 0 then
          let q := URL.Query req.URL
          let q := (rangeOrder params).foldl (fun q kv => Values.Set q kv.1 kv.2) q
          { req with URL := { req.URL with RawQuery := Values.Encode q } }
        else req
      let req :=
        if headerLen r.Header > 0 then
          if headerLen req.Header = 0 then { req with Header := r.Header }
          else
            { req with
              Header := some ((r.Header.getD []).foldl
                (fun h kvv => kvv.2.foldl (fun h v => Header.Add h kvv.1 v) h)
                (req.Header.getD [])) }
        else req
      let req :=
        match ctx with
        | some c => Request.WithContext req c
        | none => req
      Prog.perform req fun out =>
        match out with
        | .error err => Prog.ret none (some err)
        | .ok res =>
          Prog.ret (some { StatusCode := res.StatusCode, Body := res.Body, Header := res.Header })
            none

/-- WithContext sets the request context. -/
def BulkUpsertSecurityRuleMapping.WithContext (v : Option Context)
    (r : BulkUpsertSecurityRuleMappingRequest) : BulkUpsertSecurityRuleMappingRequest :=
  { r with ctx := v }

/-- WithPretty makes the response body pretty-printed. -/
def BulkUpsertSecurityRuleMapping.WithPretty
    (r : BulkUpsertSecurityRuleMappingRequest) : BulkUpsertSecurityRuleMappingRequest :=
  { r with Pretty := true }

/-- WithHuman makes statistical values human-readable. -/
def BulkUpsertSecurityRuleMapping.WithHuman
    (r : BulkUpsertSecurityRuleMappingRequest) : BulkUpsertSecurityRuleMappingRequest :=
  { r with Human := true }

/-- WithErrorTrace includes the stack trace for errors in the response body. -/
def BulkUpsertSecurityRuleMapping.WithErrorTrace
    (r : BulkUpsertSecurityRuleMappingRequest) : BulkUpsertSecurityRuleMappingRequest :=
  { r with ErrorTrace := true }

/-- WithFilterPath filters the properties of the response body. -/
def BulkUpsertSecurityRuleMapping.WithFilterPath (v : List String)
    (r : BulkUpsertSecurityRuleMappingRequest) : BulkUpsertSecurityRuleMappingRequest :=
  { r with FilterPath := v }

/-- WithHeader adds the headers to the HTTP request. -/
def BulkUpsertSecurityRuleMapping.WithHeader (h : GoMap String)
    (r : BulkUpsertSecurityRuleMappingRequest) : BulkUpsertSecurityRuleMappingRequest :=
  let r := if r.Header = none then { r with Header := some [] } else r
  { r with Header := some (h.foldl (fun hd kv => Header.Add hd kv.1 kv.2) (r.Header.getD [])) }

/-- WithOpaqueID adds the X-Opaque-Id header to the HTTP request. -/
def BulkUpsertSecurityRuleMapping.WithOpaqueID (s : String)
    (r : BulkUpsertSecurityRuleMappingRequest) : BulkUpsertSecurityRuleMappingRequest :=
  let r := if r.Header = none then { r with Header := some [] } else r
  { r with Header := some (Header.Set (r.Header.getD []) "X-Opaque-Id" s) }

/-- The function built by `newBulkUpsertSecurityRuleMappingFunc(t)`: the options
are applied in order to the request made of `name` and `body`, then `Do` runs
with the context of the request. -/
def newBulkUpsertSecurityRuleMappingFunc (name : String) (body : Option Reader)
    (o : List (BulkUpsertSecurityRuleMappingRequest → BulkUpsertSecurityRuleMappingRequest))
    (rangeOrder : GoMap String → GoMap String) : Prog :=
  let r : BulkUpsertSecurityRuleMappingRequest := { Name := name, Body := body }
  let r := o.foldl (fun r f => f r) r
  r.Do r.ctx rangeOrder

/-! ## Vocabulary of the statements -/

/-- The map `params` as each `Do` fills it, flag by flag. -/
def buildParams (pretty human errorTrace : Bool) (filterPath : List String) : GoMap String :=
  let params : GoMap String := []
  let params := if pretty then MapAssign params "pretty" "true" else params
  let params := if human then MapAssign params "human" "true" else params
  let params := if errorTrace then MapAssign params "error_trace" "true" else params
  if filterPath.length > 0 then MapAssign params "filter_path" (Join filterPath ",")
  else params

/-- The block of `Do` that writes the query of the request. -/
def attachQuery (params : GoMap String) (rangeOrder : GoMap String → GoMap String)
    (req : Request) : Request :=
  if params.length > 0 then
    { req with
      URL := { req.URL with
        RawQuery := Values.Encode
          ((rangeOrder params).foldl (fun q kv => Values.Set q kv.1 kv.2) (URL.Query req.URL)) } }
  else req

/-- The loop of `Do` that adds the caller's header values to a header map. -/
def addAll (caller : Header) (h : Header) : Header :=
  caller.foldl (fun h kvv => kvv.2.foldl (fun h v => Header.Add h kvv.1 v) h) h

/-- The block of `Do` that merges the caller's headers into the request. -/
def mergeHeader (caller : Option Header) (req : Request) : Request :=
  if headerLen caller > 0 then
    if headerLen req.Header = 0 then { req with Header := caller }
    else { req with Header := some (addAll (caller.getD []) (req.Header.getD [])) }
  else req

/-- The block of `Do` that binds the context. -/
def bindContext (ctx : Option Context) (req : Request) : Request :=
  match ctx with
  | some c => Request.WithContext req c
  | none => req

/-- The request that `Do` hands to the transport, given the request `req`
that `newRequest` returned. -/
def prepared (pretty human errorTrace : Bool) (filterPath : List String)
    (caller : Option Header) (ctx : Option Context)
    (rangeOrder : GoMap String → GoMap String) (req : Request) : Request :=
  bindContext ctx
    (mergeHeader caller (attachQuery (buildParams pretty human errorTrace filterPath) rangeOrder req))

/-- The end of `Do`: the call of the transport and the wrapping of its outcome. -/
def delegate (req : Request) : Prog :=
  Prog.perform req fun out =>
    match out with
    | .error err => Prog.ret none (some err)
    | .ok res =>
      Prog.ret (some { StatusCode := res.StatusCode, Body := res.Body, Header := res.Header })
        none

/-- The shape shared by the four `Do`: method, path and body go to
`newRequest`, an error of `newRequest` is returned as it is, a request is
prepared and delegated. -/
def doShape (method path : String) (body : Option Reader) (pretty human errorTrace : Bool)
    (filterPath : List String) (caller : Option Header) (ctx : Option Context)
    (rangeOrder : GoMap String → GoMap String) : Prog :=
  Prog.newRequest method path body fun out =>
    match out with
    | .error err => Prog.ret none (some err)
    | .ok req => delegate (prepared pretty human errorTrace filterPath caller ctx rangeOrder req)

/-- The query parameters that the flags call for, in ascending key order:
`error_trace=true`, `filter_path=` the elements joined by commas, `human=true`,
`pretty=true`, each present exactly when its flag applies. -/
def expectedPairs (pretty human errorTrace : Bool) (filterPath : List String) : GoMap String :=
  (if errorTrace then [("error_trace", "true")] else []) ++
  (if filterPath.length > 0 then [("filter_path", Join filterPath ",")] else []) ++
  (if human then [("human", "true")] else []) ++
  (if pretty then [("pretty", "true")] else [])

/-- URL encoding of a list of pairs, in the order of the list. -/
def encodePairs (ps : GoMap String) : String :=
  "&".intercalate (ps.map fun kv => QueryEscape kv.1 ++ "=" ++ QueryEscape kv.2)

/-- Number of header values held by a nilable header map, all keys together. -/
def headerValueCount (h : Option Header) : Nat :=
  ((h.getD []).map fun kvv => kvv.2.length).sum

/-- The values that a `range` over `h` hands to `Header.Add` for the canonical
key `c`, in visiting order. -/
def addedUnder (h : GoMap String) (c : String) : List String :=
  (h.filter fun kv => CanonicalMIMEHeaderKey kv.1 = c).map Prod.snd

/-- The values that the merge loop of `Do` adds under the canonical key `c`:
those of every caller key whose canonical form is `c`, in visiting order. -/
def mergedUnder (caller : Header) (c : String) : List String :=
  (caller.filter fun kvv => CanonicalMIMEHeaderKey kvv.1 = c).flatMap Prod.snd

/-- Two listings of the same map: the same keys, up to their order, and the
same entry under each key. -/
def SameMap {α : Type} (m m' : GoMap α) : Prop :=
  (MapKeys m).Perm (MapKeys m') ∧ ∀ k, MapIndex m k = MapIndex m' k

/-- The loop of `Do` over the query parameters `ps`, visited in listing order. -/
def setAll (q : Values) (ps : GoMap String) : Values :=
  ps.foldl (fun q kv => Values.Set q kv.1 kv.2) q

/-- What `Do` does to the query of the request `req` returned by `newRequest`,
`req'` being the request handed to the transport: the path is kept; without
applicable flag the raw query is kept; otherwise the raw query is the encoding
of the query that `req` carried with each called-for parameter set to its
single value, no other key being touched; and if `URL.Query` finds no parameter
on `req`, that is the encoding of the called-for pairs in ascending key order. -/
def QueryWritten (pretty human errorTrace : Bool) (filterPath : List String)
    (req req' : Request) : Prop :=
  req'.URL.Path = req.URL.Path ∧
  (expectedPairs pretty human errorTrace filterPath = [] →
    req'.URL.RawQuery = req.URL.RawQuery) ∧
  (expectedPairs pretty human errorTrace filterPath ≠ [] →
    req'.URL.RawQuery =
      Values.Encode (setAll (URL.Query req.URL) (expectedPairs pretty human errorTrace filterPath)) ∧
    ∀ k, MapIndex (setAll (URL.Query req.URL) (expectedPairs pretty human errorTrace filterPath)) k =
      match MapIndex (expectedPairs pretty human errorTrace filterPath) k with
      | some v => some [v]
      | none => MapIndex (URL.Query req.URL) k) ∧
  (expectedPairs pretty human errorTrace filterPath ≠ [] → URL.Query req.URL = [] →
    req'.URL.RawQuery = encodePairs (expectedPairs pretty human errorTrace filterPath))

/-- The header merge as the code performs it, from the caller's headers
`caller` and the headers `reqH` of the request returned by `newRequest` to the
headers `out` of the request handed to the transport. -/
def HeaderMerged (caller reqH out : Option Header) : Prop :=
  (headerLen caller = 0 → out = reqH) ∧
  (headerLen caller > 0 → headerLen reqH = 0 → out = caller) ∧
  (headerLen caller > 0 → headerLen reqH > 0 →
    ∃ h, out = some h ∧
      (∀ c, MapValues h c = MapValues (reqH.getD []) c ++ mergedUnder (caller.getD []) c) ∧
      ((MapKeys (caller.getD [])).Nodup →
        (∀ k ∈ MapKeys (caller.getD []), CanonicalMIMEHeaderKey k = k) →
        (∀ k ∈ MapKeys (caller.getD []),
          MapValues h k = MapValues (reqH.getD []) k ++ MapValues (caller.getD []) k) ∧
        (∀ k, k ∉ MapKeys (caller.getD []) → MapValues h k = MapValues (reqH.getD []) k))) ∧
  (∀ c, MapValues (reqH.getD []) c <+: MapValues (out.getD []) c)

/-- The third case of the header merge in the words of the specification:
when both collections are non-empty, each caller key holds the previous values
followed by the caller's, and every other key keeps its previous values. -/
def HeaderMergeClaimed (caller reqH out : Option Header) : Prop :=
  headerLen caller > 0 → headerLen reqH > 0 →
    (∀ k ∈ MapKeys (caller.getD []),
      MapValues (out.getD []) k = MapValues (reqH.getD []) k ++ MapValues (caller.getD []) k) ∧
    (∀ k, k ∉ MapKeys (caller.getD []) →
      MapValues (out.getD []) k = MapValues (reqH.getD []) k)

/-- A run that called the transport exactly once, with `req'`, and returned
its outcome unchanged. -/
def Delegated {σ : Type} (t : Transport σ) (s : σ) (req' : Request) (out : Run σ) : Prop :=
  out.performCalls = [req'] ∧ out.state = (t.Perform s req').2 ∧
  match (t.Perform s req').1 with
  | .error e => out.response = none ∧ out.err = some e
  | .ok res =>
    out.response = some { StatusCode := res.StatusCode, Body := res.Body, Header := res.Header } ∧
    out.err = none

/-- Where the error `e` returned by a run comes from: from `newRequest`, the
transport not being called, or from the one call of the transport. -/
def ErrorPassedOn {σ : Type} (newRequestOutcome : Except GoError Request) (t : Transport σ)
    (s : σ) (e : GoError) (out : Run σ) : Prop :=
  (newRequestOutcome = .error e ∧ out.performCalls = [] ∧ out.response = none) ∨
  (∃ req req', newRequestOutcome = .ok req ∧ out.performCalls = [req'] ∧
    (t.Perform s req').1 = .error e ∧ out.response = none)

/-- A function `newRequest` that builds the request from its arguments and
never fails. -/
def plainNewRequest (method path : String) (body : Option Reader) : Except GoError Request :=
  .ok { Method := method, URL := { Path := path, RawQuery := "" }, Header := some [],
        Body := body, ctx := none }

/-- A function `newRequest` that fails on every call. -/
def failingNewRequest (_method _path : String) (_body : Option Reader) :
    Except GoError Request :=
  .error { msg := "net/http: invalid method" }

/-- A transport that counts its calls, answers a `GET` with status 200 and
fails on any other method. -/
def countingTransport : Transport Nat where
  Perform := fun s req =>
    (if req.Method = "GET" then .ok { StatusCode := 200, Body := none, Header := none }
     else .error { msg := "connection refused" }, s + 1)

/-- An option of the bulk-upsert request that neither reads nor writes `Name`. -/
def KeepsName
    (f : BulkUpsertSecurityRuleMappingRequest → BulkUpsertSecurityRuleMappingRequest) : Prop :=
  ∀ (r : BulkUpsertSecurityRuleMappingRequest) (n : String),
    f { r with Name := n } = { f r with Name := n }

/-- The loop of `WithHeader(h)`: each entry of `h` is added to the headers. -/
def addEach (h : GoMap String) (hd : Header) : Header :=
  h.foldl (fun hd kv => Header.Add hd kv.1 kv.2) hd

/-- What `WithHeader(h)` does to the headers, from `before` to `after`: the
headers are non-nil afterwards, every canonical key holds its previous values
followed by the values of `h` whose key has that canonical form, each value of
`h` is found under the canonical form of its key, and the number of header
values has grown by the number of entries of `h`. -/
def HeadersAdded (h : GoMap String) (before after : Option Header) : Prop :=
  ∃ hd, after = some hd ∧
    (∀ c, MapValues hd c = MapValues (before.getD []) c ++ addedUnder h c) ∧
    (∀ kv ∈ h, kv.2 ∈ MapValues hd (CanonicalMIMEHeaderKey kv.1)) ∧
    headerValueCount after = headerValueCount before + h.length

/-- An option written by a caller of the bulk-upsert function: it copies the
name of the request into the header `X-Name`. -/
def copyNameToHeader
    (r : BulkUpsertSecurityRuleMappingRequest) : BulkUpsertSecurityRuleMappingRequest :=
  { r with Header := some [("X-Name", [r.Name])] }


/-! ## The four `Do` have one shape -/

theorem create_Do_eq (r : CreateSecurityRoleMappingRequest) (ctx : Option Context)
    (ro : GoMap String → GoMap String) :
    r.Do ctx ro = doShape MethodPut ("/_plugins/_security/api/rolesmapping/" ++ r.Name) r.Body
      r.Pretty r.Human r.ErrorTrace r.FilterPath r.Header ctx ro := rfl

theorem get_Do_eq (r : GetSecurityRoleMappingRequest) (ctx : Option Context)
    (ro : GoMap String → GoMap String) :
    r.Do ctx ro = doShape MethodGet ("/_plugins/_security/api/rolesmapping/" ++ r.Name) none
      r.Pretty r.Human r.ErrorTrace r.FilterPath r.Header ctx ro := rfl

theorem patch_Do_eq (r : PatchSecurityRoleMappingRequest) (ctx : Option Context)
    (ro : GoMap String → GoMap String) :
    r.Do ctx ro = doShape MethodPatch ("/_plugins/_security/api/rolesmapping/" ++ r.Name) r.Body
      r.Pretty r.Human r.ErrorTrace r.FilterPath r.Header ctx ro := rfl

theorem bulk_Do_eq (r : BulkUpsertSecurityRuleMappingRequest) (ctx : Option Context)
    (ro : GoMap String → GoMap String) :
    r.Do ctx ro = doShape MethodPatch "/_plugins/_security/api/rolesmapping/" r.Body
      r.Pretty r.Human r.ErrorTrace r.FilterPath r.Header ctx ro := rfl

/-! ## Maps -/

theorem MapIndex_assign {α : Type} (m : GoMap α) (k : String) (v : α) (k' : String) :
    MapIndex (MapAssign m k v) k' = if k = k' then some v else MapIndex m k' := by
  induction m with
  | nil => simp [MapAssign, MapIndex]
  | cons e m ih =>
    obtain ⟨a, b⟩ := e
    by_cases h : a = k
    · subst h
      by_cases h' : a = k' <;> simp [MapAssign, MapIndex, h']
    · by_cases h' : a = k'
      · subst h'
        simp [MapAssign, MapIndex, h, Ne.symm h]
      · simp [MapAssign, MapIndex, h, h', ih]

theorem MapKeys_assign_of_mem {α : Type} (m : GoMap α) (k : String) (v : α)
    (h : k ∈ MapKeys m) : MapKeys (MapAssign m k v) = MapKeys m := by
  induction m with
  | nil => simp [MapKeys] at h
  | cons e m ih =>
    obtain ⟨a, b⟩ := e
    by_cases hk : a = k
    · subst hk
      simp [MapAssign, MapKeys]
    · have hm : k ∈ MapKeys m := by
        simp only [MapKeys, List.map_cons, List.mem_cons] at h
        rcases h with h | h
        · exact absurd h.symm hk
        · exact h
      have := ih hm
      simp only [MapKeys] at this ⊢
      simp [MapAssign, hk, this]

theorem MapAssign_of_not_mem {α : Type} (m : GoMap α) (k : String) (v : α)
    (h : k ∉ MapKeys m) : MapAssign m k v = m ++ [(k, v)] := by
  induction m with
  | nil => simp [MapAssign]
  | cons e m ih =>
    obtain ⟨a, b⟩ := e
    simp only [MapKeys, List.map_cons, List.mem_cons, not_or] at h
    have hk : ¬ a = k := fun hh => h.1 hh.symm
    have := ih (by simpa [MapKeys] using h.2)
    simp [MapAssign, hk, this]

theorem MapKeys_assign_of_not_mem {α : Type} (m : GoMap α) (k : String) (v : α)
    (h : k ∉ MapKeys m) : MapKeys (MapAssign m k v) = MapKeys m ++ [k] := by
  rw [MapAssign_of_not_mem m k v h]
  simp [MapKeys]

theorem MapAssign_length_of_mem {α : Type} (m : GoMap α) (k : String) (v : α)
    (h : k ∈ MapKeys m) : (MapAssign m k v).length = m.length := by
  have := congrArg List.length (MapKeys_assign_of_mem m k v h)
  simpa [MapKeys] using this

theorem MapAssign_assign {α : Type} (m : GoMap α) (k : String) (v w : α) :
    MapAssign (MapAssign m k v) k w = MapAssign m k w := by
  induction m with
  | nil => simp [MapAssign]
  | cons e m ih =>
    obtain ⟨a, b⟩ := e
    by_cases hk : a = k
    · subst hk
      simp [MapAssign]
    · simp [MapAssign, hk, ih]

theorem MapAssign_ne_nil {α : Type} (m : GoMap α) (k : String) (v : α) :
    MapAssign m k v ≠ [] := by
  cases m with
  | nil => simp [MapAssign]
  | cons e m =>
    obtain ⟨a, b⟩ := e
    by_cases hk : a = k <;> simp [MapAssign, hk]

theorem MapValues_assign (m : GoMap (List String)) (k : String) (v : List String) (k' : String) :
    MapValues (MapAssign m k v) k' = if k = k' then v else MapValues m k' := by
  unfold MapValues
  rw [MapIndex_assign]
  split <;> rfl

theorem MapIndex_eq_none_iff {α : Type} (m : GoMap α) (k : String) :
    MapIndex m k = none ↔ k ∉ MapKeys m := by
  induction m with
  | nil => simp [MapIndex, MapKeys]
  | cons e m ih =>
    obtain ⟨a, b⟩ := e
    by_cases hk : a = k
    · subst hk
      simp [MapIndex, MapKeys]
    · have hk' : ¬ k = a := fun h => hk h.symm
      simp only [MapKeys] at ih
      simp [MapIndex, MapKeys, hk, hk', ih]


/-! ## The order of the keys -/

theorem char_eq_of_toNat_eq (a b : Char) (h : a.toNat = b.toNat) : a = b := by
  have := congrArg Char.ofNat h
  simpa using this

theorem bytesLE_total (a b : List Char) : bytesLE a b = true ∨ bytesLE b a = true := by
  induction a generalizing b with
  | nil => simp [bytesLE]
  | cons x xs ih =>
    cases b with
    | nil => simp [bytesLE]
    | cons y ys =>
      rcases Nat.lt_trichotomy x.toNat y.toNat with h | h | h
      · simp [bytesLE, h]
      · have h1 : ¬ x.toNat < y.toNat := by omega
        have h2 : ¬ y.toNat < x.toNat := by omega
        simpa [bytesLE, h1, h2] using ih ys
      · right
        simp [bytesLE, h]

theorem bytesLE_antisymm (a b : List Char) (h1 : bytesLE a b = true) (h2 : bytesLE b a = true) :
    a = b := by
  induction a generalizing b with
  | nil =>
    cases b with
    | nil => rfl
    | cons y ys => simp [bytesLE] at h2
  | cons x xs ih =>
    cases b with
    | nil => simp [bytesLE] at h1
    | cons y ys =>
      rcases Nat.lt_trichotomy x.toNat y.toNat with h | h | h
      · have h' : ¬ y.toNat < x.toNat := by omega
        simp [bytesLE, h, h'] at h2
      · have h3 : ¬ x.toNat < y.toNat := by omega
        have h4 : ¬ y.toNat < x.toNat := by omega
        simp only [bytesLE, h3, h4, if_false] at h1 h2
        rw [char_eq_of_toNat_eq x y h, ih ys h1 h2]
      · have h' : ¬ x.toNat < y.toNat := by omega
        simp [bytesLE, h, h'] at h1

theorem bytesLE_trans (a b c : List Char) (h1 : bytesLE a b = true) (h2 : bytesLE b c = true) :
    bytesLE a c = true := by
  induction a generalizing b c with
  | nil => simp [bytesLE]
  | cons x xs ih =>
    cases b with
    | nil => simp [bytesLE] at h1
    | cons y ys =>
      cases c with
      | nil => simp [bytesLE] at h2
      | cons z zs =>
        rcases Nat.lt_trichotomy x.toNat y.toNat with h | h | h
        · rcases Nat.lt_trichotomy y.toNat z.toNat with g | g | g
          · have : x.toNat < z.toNat := by omega
            simp [bytesLE, this]
          · have : x.toNat < z.toNat := by omega
            simp [bytesLE, this]
          · have g' : ¬ y.toNat < z.toNat := by omega
            simp [bytesLE, g, g'] at h2
        · have h3 : ¬ x.toNat < y.toNat := by omega
          have h4 : ¬ y.toNat < x.toNat := by omega
          simp only [bytesLE, h3, h4, if_false] at h1
          rcases Nat.lt_trichotomy y.toNat z.toNat with g | g | g
          · have : x.toNat < z.toNat := by omega
            simp [bytesLE, this]
          · have g3 : ¬ y.toNat < z.toNat := by omega
            have g4 : ¬ z.toNat < y.toNat := by omega
            simp only [bytesLE, g3, g4, if_false] at h2
            have e3 : ¬ x.toNat < z.toNat := by omega
            have e4 : ¬ z.toNat < x.toNat := by omega
            simpa [bytesLE, e3, e4] using ih ys zs h1 h2
          · have g' : ¬ y.toNat < z.toNat := by omega
            simp [bytesLE, g, g'] at h2
        · have h' : ¬ x.toNat < y.toNat := by omega
          simp [bytesLE, h, h'] at h1

theorem keyLE_isTotal : IsTotal String keyLE :=
  ⟨fun a b => bytesLE_total a.data b.data⟩

theorem keyLE_isTrans : IsTrans String keyLE :=
  ⟨fun a b c h1 h2 => bytesLE_trans a.data b.data c.data h1 h2⟩

theorem keyLE_isAntisymm : IsAntisymm String keyLE :=
  ⟨fun a b h1 h2 => String.ext (bytesLE_antisymm a.data b.data h1 h2)⟩

theorem sort_eq_of_perm (l₁ l₂ : List String) (h : l₁.Perm l₂) :
    l₁.insertionSort keyLE = l₂.insertionSort keyLE := by
  haveI := keyLE_isTotal
  haveI := keyLE_isTrans
  haveI := keyLE_isAntisymm
  apply List.eq_of_perm_of_sorted (r := keyLE)
  · exact ((List.perm_insertionSort keyLE l₁).trans h).trans (List.perm_insertionSort keyLE l₂).symm
  · exact List.sorted_insertionSort keyLE l₁
  · exact List.sorted_insertionSort keyLE l₂

/-! ## `Values.Encode` -/

/-- What the inner loop of `Values.Encode` does with one pair already rendered. -/
theorem encode_step_assoc (buf ke ve : String) :
    (if buf.length > 0 then buf ++ "&" else buf) ++ ke ++ "=" ++ ve =
      (if buf.length > 0 then buf ++ "&" else buf) ++ (ke ++ "=" ++ ve) := by
  simp [String.append_assoc]

theorem foldl_pieces_nonempty (ps : List String) (buf : String) (hbuf : buf.length > 0) :
    ps.foldl (fun buf p => (if buf.length > 0 then buf ++ "&" else buf) ++ p) buf =
      String.intercalate.go buf "&" ps := by
  induction ps generalizing buf with
  | nil => simp [String.intercalate.go]
  | cons p ps ih =>
    simp only [List.foldl_cons, String.intercalate.go, hbuf, if_true]
    apply ih
    simp [String.length_append]
    omega

theorem foldl_pieces (ps : List String) (hps : ∀ p ∈ ps, p.length > 0) :
    ps.foldl (fun buf p => (if buf.length > 0 then buf ++ "&" else buf) ++ p) "" =
      "&".intercalate ps := by
  cases ps with
  | nil => simp [String.intercalate]
  | cons p ps =>
    have hp : p.length > 0 := hps p (by simp)
    have h0 : ¬ ("".length > 0) := by decide
    simp only [List.foldl_cons, String.intercalate, h0, if_false, String.empty_append]
    exact foldl_pieces_nonempty ps p hp

theorem foldl_nested {α β γ : Type} (f : γ → β → γ) (g : α → List β) (l : List α) (init : γ) :
    l.foldl (fun acc a => (g a).foldl f acc) init = (l.flatMap g).foldl f init := by
  induction l generalizing init with
  | nil => simp
  | cons a l ih => simp [List.flatMap_cons, List.foldl_append, ih]

/-- The pairs `key=value` that `Values.Encode` writes, in writing order. -/
theorem encode_eq_intercalate (v : Values) :
    Values.Encode v =
      "&".intercalate (((MapKeys v).insertionSort keyLE).flatMap fun k =>
        (MapValues v k).map fun x => QueryEscape k ++ "=" ++ QueryEscape x) := by
  unfold Values.Encode
  by_cases h : v.length = 0
  · have : v = [] := List.eq_nil_of_length_eq_zero h
    subst this
    simp [MapKeys, String.intercalate]
  · simp only [h, if_false]
    have hstep : ∀ k : String,
        (fun (buf : String) (x : String) =>
          (if buf.length > 0 then buf ++ "&" else buf) ++ QueryEscape k ++ "=" ++ QueryEscape x) =
        (fun (buf : String) (x : String) =>
          (fun (buf p : String) => (if buf.length > 0 then buf ++ "&" else buf) ++ p) buf
            ((fun x => QueryEscape k ++ "=" ++ QueryEscape x) x)) := by
      intro k
      funext buf x
      exact encode_step_assoc buf (QueryEscape k) (QueryEscape x)
    have hinner : ∀ (k : String) (buf : String),
        (MapValues v k).foldl (fun (buf : String) (x : String) =>
          (if buf.length > 0 then buf ++ "&" else buf) ++ QueryEscape k ++ "=" ++ QueryEscape x) buf =
        ((MapValues v k).map fun x => QueryEscape k ++ "=" ++ QueryEscape x).foldl
          (fun (buf p : String) => (if buf.length > 0 then buf ++ "&" else buf) ++ p) buf := by
      intro k buf
      rw [hstep k, List.foldl_map]
    simp only [hinner]
    rw [foldl_nested (fun (buf p : String) => (if buf.length > 0 then buf ++ "&" else buf) ++ p)
      (fun k => (MapValues v k).map fun x => QueryEscape k ++ "=" ++ QueryEscape x)]
    apply foldl_pieces
    intro p hp
    simp only [List.mem_flatMap, List.mem_map] at hp
    obtain ⟨k, _, x, _, rfl⟩ := hp
    have h1 : "=".length = 1 := by decide
    simp only [String.length_append, h1]
    omega

/-- Two listings of one map have the same encoding. -/
theorem encode_congr (v w : Values) (hk : (MapKeys v).Perm (MapKeys w))
    (hv : ∀ k, MapIndex v k = MapIndex w k) : Values.Encode v = Values.Encode w := by
  rw [encode_eq_intercalate, encode_eq_intercalate, sort_eq_of_perm _ _ hk]
  have : ∀ k, MapValues v k = MapValues w k := fun k => by simp [MapValues, hv k]
  simp [this]


/-! ## The loop over `params` does not depend on the visiting order -/

theorem mem_keys_of_sameMap {α : Type} {m m' : GoMap α} (h : SameMap m m') (k : String) :
    k ∈ MapKeys m ↔ k ∈ MapKeys m' := h.1.mem_iff

theorem sameMap_refl {α : Type} (m : GoMap α) : SameMap m m :=
  ⟨List.Perm.refl _, fun _ => rfl⟩

theorem sameMap_trans {α : Type} {a b c : GoMap α} (h1 : SameMap a b) (h2 : SameMap b c) :
    SameMap a c :=
  ⟨h1.1.trans h2.1, fun k => (h1.2 k).trans (h2.2 k)⟩

theorem sameMap_assign {α : Type} {m m' : GoMap α} (h : SameMap m m') (k : String) (v : α) :
    SameMap (MapAssign m k v) (MapAssign m' k v) := by
  refine ⟨?_, fun k' => by rw [MapIndex_assign, MapIndex_assign, h.2 k']⟩
  by_cases hk : k ∈ MapKeys m
  · have hk' : k ∈ MapKeys m' := (mem_keys_of_sameMap h k).1 hk
    rw [MapKeys_assign_of_mem m k v hk, MapKeys_assign_of_mem m' k v hk']
    exact h.1
  · have hk' : k ∉ MapKeys m' := fun hh => hk ((mem_keys_of_sameMap h k).2 hh)
    rw [MapKeys_assign_of_not_mem m k v hk, MapKeys_assign_of_not_mem m' k v hk']
    exact h.1.append_right [k]

theorem mem_keys_assign {α : Type} (m : GoMap α) (k : String) (v : α) (k' : String) :
    k' ∈ MapKeys (MapAssign m k v) ↔ k' = k ∨ k' ∈ MapKeys m := by
  by_cases hk : k ∈ MapKeys m
  · rw [MapKeys_assign_of_mem m k v hk]
    constructor
    · exact fun h => Or.inr h
    · rintro (h | h)
      · exact h ▸ hk
      · exact h
  · rw [MapKeys_assign_of_not_mem m k v hk]
    simp [or_comm]

theorem sameMap_assign_comm {α : Type} (m : GoMap α) (k₁ k₂ : String) (v₁ v₂ : α)
    (hne : k₁ ≠ k₂) :
    SameMap (MapAssign (MapAssign m k₁ v₁) k₂ v₂) (MapAssign (MapAssign m k₂ v₂) k₁ v₁) := by
  refine ⟨?_, fun k => ?_⟩
  · by_cases h1 : k₁ ∈ MapKeys m <;> by_cases h2 : k₂ ∈ MapKeys m
    · have a : k₂ ∈ MapKeys (MapAssign m k₁ v₁) := (mem_keys_assign m k₁ v₁ k₂).2 (Or.inr h2)
      have b : k₁ ∈ MapKeys (MapAssign m k₂ v₂) := (mem_keys_assign m k₂ v₂ k₁).2 (Or.inr h1)
      rw [MapKeys_assign_of_mem _ k₂ v₂ a, MapKeys_assign_of_mem _ k₁ v₁ b,
        MapKeys_assign_of_mem _ k₁ v₁ h1, MapKeys_assign_of_mem _ k₂ v₂ h2]
    · have a : k₂ ∉ MapKeys (MapAssign m k₁ v₁) := by
        rw [mem_keys_assign]; rintro (h | h)
        · exact hne h.symm
        · exact h2 h
      have b : k₁ ∈ MapKeys (MapAssign m k₂ v₂) := (mem_keys_assign m k₂ v₂ k₁).2 (Or.inr h1)
      rw [MapKeys_assign_of_not_mem _ k₂ v₂ a, MapKeys_assign_of_mem _ k₁ v₁ b,
        MapKeys_assign_of_mem _ k₁ v₁ h1, MapKeys_assign_of_not_mem _ k₂ v₂ h2]
    · have a : k₂ ∈ MapKeys (MapAssign m k₁ v₁) := (mem_keys_assign m k₁ v₁ k₂).2 (Or.inr h2)
      have b : k₁ ∉ MapKeys (MapAssign m k₂ v₂) := by
        rw [mem_keys_assign]; rintro (h | h)
        · exact hne h
        · exact h1 h
      rw [MapKeys_assign_of_mem _ k₂ v₂ a, MapKeys_assign_of_not_mem _ k₁ v₁ b,
        MapKeys_assign_of_not_mem _ k₁ v₁ h1, MapKeys_assign_of_mem _ k₂ v₂ h2]
    · have a : k₂ ∉ MapKeys (MapAssign m k₁ v₁) := by
        rw [mem_keys_assign]; rintro (h | h)
        · exact hne h.symm
        · exact h2 h
      have b : k₁ ∉ MapKeys (MapAssign m k₂ v₂) := by
        rw [mem_keys_assign]; rintro (h | h)
        · exact hne h
        · exact h1 h
      rw [MapKeys_assign_of_not_mem _ k₂ v₂ a, MapKeys_assign_of_not_mem _ k₁ v₁ b,
        MapKeys_assign_of_not_mem _ k₁ v₁ h1, MapKeys_assign_of_not_mem _ k₂ v₂ h2]
      rw [List.append_assoc, List.append_assoc]
      exact List.Perm.append_left _ (List.Perm.swap k₂ k₁ [])
  · rw [MapIndex_assign, MapIndex_assign, MapIndex_assign, MapIndex_assign]
    by_cases e1 : k₁ = k <;> by_cases e2 : k₂ = k
    · exact absurd (e1.trans e2.symm) hne
    · simp [e1, e2]
    · simp [e1, e2]
    · simp [e1, e2]

theorem setAll_cons (q : Values) (kv : String × String) (ps : GoMap String) :
    setAll q (kv :: ps) = setAll (Values.Set q kv.1 kv.2) ps := rfl

theorem setAll_sameMap (l : GoMap String) (a b : Values) (hab : SameMap a b) :
    SameMap (setAll a l) (setAll b l) := by
  induction l generalizing a b with
  | nil => exact hab
  | cons e l ihl =>
    rw [setAll_cons, setAll_cons]
    exact ihl _ _ (sameMap_assign hab _ _)

theorem setAll_sameMap_of_perm {ps ps' : GoMap String} (h : ps.Perm ps') :
    (MapKeys ps).Nodup → ∀ q q' : Values, SameMap q q' → SameMap (setAll q ps) (setAll q' ps') := by
  induction h with
  | nil => intro _ q q' hq; exact hq
  | cons x _ ih =>
    intro hnd q q' hq
    rw [setAll_cons, setAll_cons]
    apply ih
    · simp only [MapKeys, List.map_cons, List.nodup_cons] at hnd
      exact hnd.2
    · exact sameMap_assign hq _ _
  | swap x y l =>
    intro hnd q q' hq
    rw [setAll_cons, setAll_cons, setAll_cons, setAll_cons]
    have hne : y.1 ≠ x.1 := by
      simp only [MapKeys, List.map_cons, List.nodup_cons, List.mem_cons, not_or] at hnd
      exact hnd.1.1
    have hl := setAll_sameMap l
    apply hl
    unfold Values.Set
    exact sameMap_trans (sameMap_assign_comm q y.1 x.1 [y.2] [x.2] hne)
      (sameMap_assign (sameMap_assign hq _ _) _ _)
  | trans h₁ _ ih₁ ih₂ =>
    intro hnd q q' hq
    have hnd' := (List.Perm.nodup_iff (h₁.map Prod.fst)).1 hnd
    exact sameMap_trans (ih₁ hnd q q (sameMap_refl q)) (ih₂ hnd' q q' hq)

/-- Under each key the loop leaves the single value of the parameter, or what
the query held before when the key is none of the parameters. -/
theorem setAll_index (ps : GoMap String) (hnd : (MapKeys ps).Nodup) (q : Values) (k : String) :
    MapIndex (setAll q ps) k =
      match MapIndex ps k with
      | some v => some [v]
      | none => MapIndex q k := by
  induction ps generalizing q with
  | nil => simp [setAll, MapIndex]
  | cons e ps ih =>
    obtain ⟨a, b⟩ := e
    simp only [MapKeys, List.map_cons, List.nodup_cons] at hnd
    rw [setAll_cons, ih hnd.2]
    by_cases hk : a = k
    · subst hk
      have : MapIndex ps a = none := (MapIndex_eq_none_iff ps a).2 hnd.1
      simp [this, MapIndex, Values.Set, MapIndex_assign]
    · simp only [MapIndex, hk, if_false, Values.Set, MapIndex_assign]

theorem setAll_keys (ps : GoMap String) (hnd : (MapKeys ps).Nodup) (q : Values)
    (hdis : ∀ k ∈ MapKeys ps, k ∉ MapKeys q) :
    MapKeys (setAll q ps) = MapKeys q ++ MapKeys ps := by
  induction ps generalizing q with
  | nil => simp [setAll, MapKeys]
  | cons e ps ih =>
    obtain ⟨a, b⟩ := e
    simp only [MapKeys, List.map_cons, List.nodup_cons] at hnd
    have ha : a ∉ MapKeys q := hdis a (by simp [MapKeys])
    rw [setAll_cons, ih hnd.2]
    · simp only [Values.Set]
      rw [MapKeys_assign_of_not_mem q a [b] ha]
      simp [MapKeys]
    · intro k hk
      simp only [Values.Set]
      rw [mem_keys_assign]
      rintro (h | h)
      · subst h
        exact hnd.1 hk
      · exact hdis k (by simp only [MapKeys, List.map_cons, List.mem_cons]; exact Or.inr hk) h

theorem MapIndex_of_mem {α : Type} (ps : GoMap α) (hnd : (MapKeys ps).Nodup) (kv : String × α)
    (h : kv ∈ ps) : MapIndex ps kv.1 = some kv.2 := by
  induction ps with
  | nil => simp at h
  | cons e ps ih =>
    obtain ⟨a, b⟩ := e
    simp only [MapKeys, List.map_cons, List.nodup_cons] at hnd
    rcases List.mem_cons.1 h with h | h
    · subst h
      simp [MapIndex]
    · have hne : ¬ a = kv.1 := by
        intro ha
        apply hnd.1
        rw [ha]
        exact List.mem_map_of_mem Prod.fst h
      simp only [MapIndex, hne, if_false]
      exact ih hnd.2 h

theorem flatMap_keys_pairs (m : Values) (ps : GoMap String)
    (h : ∀ kv ∈ ps, MapValues m kv.1 = [kv.2]) :
    ((MapKeys ps).flatMap fun k =>
      (MapValues m k).map fun x => QueryEscape k ++ "=" ++ QueryEscape x) =
    ps.map fun kv => QueryEscape kv.1 ++ "=" ++ QueryEscape kv.2 := by
  induction ps with
  | nil => simp [MapKeys]
  | cons e ps ih =>
    have h1 := h e (by simp)
    have h2 := ih (fun kv hkv => h kv (by simp [hkv]))
    simp only [MapKeys] at h2
    simp [MapKeys, List.flatMap_cons, h1, h2]

/-- On a request without query the loop leaves exactly the parameters, and
their encoding lists them in ascending key order. -/
theorem encode_setAll_nil (ps : GoMap String) (hnd : (MapKeys ps).Nodup)
    (hs : (MapKeys ps).Sorted keyLE) : Values.Encode (setAll [] ps) = encodePairs ps := by
  rw [encode_eq_intercalate, setAll_keys ps hnd [] (by simp [MapKeys])]
  have : MapKeys ([] : Values) ++ MapKeys ps = MapKeys ps := by simp [MapKeys]
  rw [this, List.Sorted.insertionSort_eq hs, flatMap_keys_pairs]
  · rfl
  · intro kv hkv
    unfold MapValues
    rw [setAll_index ps hnd [] kv.1, MapIndex_of_mem ps hnd kv hkv]
    rfl


/-! ## The parameters built from the flags -/

theorem buildParams_eq (p h e : Bool) (fp : List String) :
    buildParams p h e fp =
      (if p then [("pretty", "true")] else []) ++
      (if h then [("human", "true")] else []) ++
      (if e then [("error_trace", "true")] else []) ++
      (if fp.length > 0 then [("filter_path", Join fp ",")] else []) := by
  by_cases hf : fp.length > 0 <;> cases p <;> cases h <;> cases e <;>
    simp [buildParams, MapAssign, hf]

theorem perm_four {α : Type} (P H E F : List α) :
    (P ++ H ++ E ++ F).Perm (E ++ F ++ H ++ P) := by
  have h1 : (P ++ H ++ E ++ F).Perm ((E ++ F) ++ (P ++ H)) := by
    rw [List.append_assoc (P ++ H) E F]
    exact List.perm_append_comm
  have h2 : ((E ++ F) ++ (P ++ H)).Perm ((E ++ F) ++ (H ++ P)) :=
    List.Perm.append_left _ List.perm_append_comm
  rw [List.append_assoc (E ++ F) H P]
  exact h1.trans h2

theorem buildParams_perm (p h e : Bool) (fp : List String) :
    (buildParams p h e fp).Perm (expectedPairs p h e fp) := by
  rw [buildParams_eq]
  exact perm_four _ _ _ _

theorem expectedPairs_keys_nodup (p h e : Bool) (fp : List String) :
    (MapKeys (expectedPairs p h e fp)).Nodup := by
  by_cases hf : fp.length > 0 <;> cases p <;> cases h <;> cases e <;>
    simp [expectedPairs, MapKeys, hf]

theorem expectedPairs_keys_sorted (p h e : Bool) (fp : List String) :
    (MapKeys (expectedPairs p h e fp)).Sorted keyLE := by
  by_cases hf : fp.length > 0 <;> cases p <;> cases h <;> cases e <;>
    simp [expectedPairs, MapKeys, hf] <;> decide

theorem buildParams_keys_nodup (p h e : Bool) (fp : List String) :
    (MapKeys (buildParams p h e fp)).Nodup :=
  (List.Perm.nodup_iff ((buildParams_perm p h e fp).map Prod.fst)).2
    (expectedPairs_keys_nodup p h e fp)

theorem buildParams_length (p h e : Bool) (fp : List String) :
    (buildParams p h e fp).length > 0 ↔ expectedPairs p h e fp ≠ [] := by
  rw [(buildParams_perm p h e fp).length_eq]
  exact List.length_pos

/-- The query written by `Do` does not depend on the order in which `params`
is visited. -/
theorem attachQuery_rawQuery (p h e : Bool) (fp : List String)
    (ro : GoMap String → GoMap String) (hro : ∀ l, (ro l).Perm l) (req : Request) :
    (attachQuery (buildParams p h e fp) ro req).URL.RawQuery =
      if expectedPairs p h e fp = [] then req.URL.RawQuery
      else Values.Encode (setAll (URL.Query req.URL) (expectedPairs p h e fp)) := by
  unfold attachQuery
  by_cases hne : expectedPairs p h e fp = []
  · have : ¬ (buildParams p h e fp).length > 0 := fun hh => (buildParams_length p h e fp).1 hh hne
    simp [this, hne]
  · have hlen : (buildParams p h e fp).length > 0 := (buildParams_length p h e fp).2 hne
    simp only [hlen, if_true, hne, if_false]
    have hperm : (ro (buildParams p h e fp)).Perm (expectedPairs p h e fp) :=
      (hro _).trans (buildParams_perm p h e fp)
    have hnd : (MapKeys (ro (buildParams p h e fp))).Nodup :=
      (List.Perm.nodup_iff (hperm.map Prod.fst)).2 (expectedPairs_keys_nodup p h e fp)
    have hsame := setAll_sameMap_of_perm hperm hnd (URL.Query req.URL) (URL.Query req.URL)
      (sameMap_refl _)
    exact encode_congr _ _ hsame.1 hsame.2

theorem attachQuery_path (params : GoMap String) (ro : GoMap String → GoMap String)
    (req : Request) : (attachQuery params ro req).URL.Path = req.URL.Path := by
  unfold attachQuery
  split <;> rfl

theorem attachQuery_frame (params : GoMap String) (ro : GoMap String → GoMap String)
    (req : Request) :
    (attachQuery params ro req).Method = req.Method ∧
    (attachQuery params ro req).Header = req.Header ∧
    (attachQuery params ro req).Body = req.Body ∧
    (attachQuery params ro req).ctx = req.ctx := by
  unfold attachQuery
  split <;> exact ⟨rfl, rfl, rfl, rfl⟩

theorem mergeHeader_frame (caller : Option Header) (req : Request) :
    (mergeHeader caller req).Method = req.Method ∧
    (mergeHeader caller req).URL = req.URL ∧
    (mergeHeader caller req).Body = req.Body ∧
    (mergeHeader caller req).ctx = req.ctx := by
  unfold mergeHeader
  split
  · split <;> exact ⟨rfl, rfl, rfl, rfl⟩
  · exact ⟨rfl, rfl, rfl, rfl⟩

theorem bindContext_frame (ctx : Option Context) (req : Request) :
    (bindContext ctx req).Method = req.Method ∧
    (bindContext ctx req).URL = req.URL ∧
    (bindContext ctx req).Body = req.Body ∧
    (bindContext ctx req).Header = req.Header := by
  cases ctx <;> exact ⟨rfl, rfl, rfl, rfl⟩

theorem prepared_rawQuery (p h e : Bool) (fp : List String) (caller : Option Header)
    (ctx : Option Context) (ro : GoMap String → GoMap String) (hro : ∀ l, (ro l).Perm l)
    (req : Request) :
    (prepared p h e fp caller ctx ro req).URL.RawQuery =
      if expectedPairs p h e fp = [] then req.URL.RawQuery
      else Values.Encode (setAll (URL.Query req.URL) (expectedPairs p h e fp)) := by
  unfold prepared
  rw [(bindContext_frame _ _).2.1, (mergeHeader_frame _ _).2.1]
  exact attachQuery_rawQuery p h e fp ro hro req

theorem prepared_path (p h e : Bool) (fp : List String) (caller : Option Header)
    (ctx : Option Context) (ro : GoMap String → GoMap String) (req : Request) :
    (prepared p h e fp caller ctx ro req).URL.Path = req.URL.Path := by
  unfold prepared
  rw [(bindContext_frame _ _).2.1, (mergeHeader_frame _ _).2.1]
  exact attachQuery_path _ ro req

theorem prepared_method_body (p h e : Bool) (fp : List String) (caller : Option Header)
    (ctx : Option Context) (ro : GoMap String → GoMap String) (req : Request) :
    (prepared p h e fp caller ctx ro req).Method = req.Method ∧
    (prepared p h e fp caller ctx ro req).Body = req.Body := by
  unfold prepared
  refine ⟨?_, ?_⟩
  · rw [(bindContext_frame _ _).1, (mergeHeader_frame _ _).1, (attachQuery_frame _ _ _).1]
  · rw [(bindContext_frame _ _).2.2.1, (mergeHeader_frame _ _).2.2.1,
      (attachQuery_frame _ _ _).2.2.1]

theorem prepared_header (p h e : Bool) (fp : List String) (caller : Option Header)
    (ctx : Option Context) (ro : GoMap String → GoMap String) (req : Request) :
    (prepared p h e fp caller ctx ro req).Header = (mergeHeader caller req).Header := by
  unfold prepared
  rw [(bindContext_frame _ _).2.2.2]
  unfold mergeHeader
  have := (attachQuery_frame (buildParams p h e fp) ro req).2.1
  split
  · rw [this]
    split <;> simp [this]
  · exact this


/-! ## Headers -/

theorem MapValues_add (h : Header) (k v c : String) :
    MapValues (Header.Add h k v) c =
      if CanonicalMIMEHeaderKey k = c then MapValues h c ++ [v] else MapValues h c := by
  unfold Header.Add
  simp only [MapValues_assign]
  by_cases hc : CanonicalMIMEHeaderKey k = c
  · simp [hc]
  · simp [hc]

theorem MapValues_add_values (h : Header) (k : String) (vv : List String) (c : String) :
    MapValues (vv.foldl (fun h v => Header.Add h k v) h) c =
      if CanonicalMIMEHeaderKey k = c then MapValues h c ++ vv else MapValues h c := by
  induction vv generalizing h with
  | nil => simp
  | cons v vv ih =>
    rw [List.foldl_cons, ih, MapValues_add]
    by_cases hc : CanonicalMIMEHeaderKey k = c <;> simp [hc]

theorem mergedUnder_cons (e : String × List String) (caller : Header) (c : String) :
    mergedUnder (e :: caller) c =
      (if CanonicalMIMEHeaderKey e.1 = c then e.2 else []) ++ mergedUnder caller c := by
  unfold mergedUnder
  by_cases hc : CanonicalMIMEHeaderKey e.1 = c <;> simp [List.filter_cons, hc, List.flatMap_cons]

theorem MapValues_addAll (caller h : Header) (c : String) :
    MapValues (addAll caller h) c = MapValues h c ++ mergedUnder caller c := by
  induction caller generalizing h with
  | nil => simp [addAll, mergedUnder]
  | cons e caller ih =>
    have : addAll (e :: caller) h = addAll caller (e.2.foldl (fun h v => Header.Add h e.1 v) h) := rfl
    rw [this, ih, MapValues_add_values, mergedUnder_cons]
    by_cases hc : CanonicalMIMEHeaderKey e.1 = c <;> simp [hc]

theorem MapValues_of_not_mem (m : GoMap (List String)) (k : String) (h : k ∉ MapKeys m) :
    MapValues m k = [] := by
  unfold MapValues
  rw [(MapIndex_eq_none_iff m k).2 h]
  rfl

theorem mergedUnder_of_canonical (caller : Header) (hnd : (MapKeys caller).Nodup)
    (hc : ∀ k ∈ MapKeys caller, CanonicalMIMEHeaderKey k = k) (c : String) :
    mergedUnder caller c = MapValues caller c := by
  induction caller with
  | nil => simp [mergedUnder, MapValues, MapIndex]
  | cons e caller ih =>
    obtain ⟨a, b⟩ := e
    simp only [MapKeys, List.map_cons, List.nodup_cons] at hnd
    have ha : CanonicalMIMEHeaderKey a = a := hc a (by simp [MapKeys])
    have ih' := ih hnd.2 (fun k hk => hc k (by
      simp only [MapKeys, List.map_cons, List.mem_cons]; exact Or.inr hk))
    rw [mergedUnder_cons, ih']
    simp only [ha]
    by_cases hac : a = c
    · subst hac
      have h0 : MapValues caller a = [] := MapValues_of_not_mem caller a hnd.1
      have h1 : MapValues ((a, b) :: caller) a = b := by simp [MapValues, MapIndex]
      rw [h0, h1]
      simp
    · have h1 : MapValues ((a, b) :: caller) c = MapValues caller c := by
        simp [MapValues, MapIndex, hac]
      rw [h1]
      simp [hac]

theorem addedUnder_cons (e : String × String) (h : GoMap String) (c : String) :
    addedUnder (e :: h) c =
      (if CanonicalMIMEHeaderKey e.1 = c then [e.2] else []) ++ addedUnder h c := by
  unfold addedUnder
  by_cases hc : CanonicalMIMEHeaderKey e.1 = c <;> simp [List.filter_cons, hc]

theorem MapValues_addEach (h : GoMap String) (hd : Header) (c : String) :
    MapValues (h.foldl (fun hd kv => Header.Add hd kv.1 kv.2) hd) c =
      MapValues hd c ++ addedUnder h c := by
  induction h generalizing hd with
  | nil => simp [addedUnder]
  | cons e h ih =>
    rw [List.foldl_cons, ih, MapValues_add, addedUnder_cons]
    by_cases hc : CanonicalMIMEHeaderKey e.1 = c <;> simp [hc]

theorem valueCount_append_one (m : Header) (k v : String) :
    ((MapAssign m k (MapValues m k ++ [v])).map fun kvv => kvv.2.length).sum =
      (m.map fun kvv => kvv.2.length).sum + 1 := by
  induction m with
  | nil => simp [MapAssign, MapValues, MapIndex]
  | cons e m ih =>
    obtain ⟨a, b⟩ := e
    by_cases hk : a = k
    · subst hk
      simp [MapAssign, MapValues, MapIndex]
      omega
    · have hv : MapValues ((a, b) :: m) k = MapValues m k := by simp [MapValues, MapIndex, hk]
      rw [hv]
      simp only [MapAssign, hk, if_false, List.map_cons, List.sum_cons, ih]
      omega

theorem headerValueCount_add (h : Header) (k v : String) :
    headerValueCount (some (Header.Add h k v)) = headerValueCount (some h) + 1 := by
  unfold headerValueCount Header.Add
  exact valueCount_append_one h (CanonicalMIMEHeaderKey k) v

theorem headerValueCount_addEach (h : GoMap String) (hd : Header) :
    headerValueCount (some (h.foldl (fun hd kv => Header.Add hd kv.1 kv.2) hd)) =
      headerValueCount (some hd) + h.length := by
  induction h generalizing hd with
  | nil => simp
  | cons e h ih =>
    rw [List.foldl_cons, ih, headerValueCount_add, List.length_cons]
    omega

theorem canonical_opaque_id : CanonicalMIMEHeaderKey "X-Opaque-Id" = "X-Opaque-Id" := by
  decide


/-! ## The properties -/

/-- C1: for the create, get and patch-single requests and every `Name`, the
path handed to `newRequest` is the base path `/_plugins/_security/api/rolesmapping/`
followed by `Name` as it is; with the empty `Name` it is the base path with its
trailing slash. -/
theorem path_is_base_then_name (ctx : Option Context) (ro : GoMap String → GoMap String) :
    (∀ r : CreateSecurityRoleMappingRequest,
      (r.Do ctx ro).newRequestArgs.map (fun a => a.2.1) =
        some ("/_plugins/_security/api/rolesmapping/" ++ r.Name) ∧
      (({ r with Name := "" } : CreateSecurityRoleMappingRequest).Do ctx ro).newRequestArgs.map (fun a => a.2.1) =
        some "/_plugins/_security/api/rolesmapping/") ∧
    (∀ r : GetSecurityRoleMappingRequest,
      (r.Do ctx ro).newRequestArgs.map (fun a => a.2.1) =
        some ("/_plugins/_security/api/rolesmapping/" ++ r.Name) ∧
      (({ r with Name := "" } : GetSecurityRoleMappingRequest).Do ctx ro).newRequestArgs.map (fun a => a.2.1) =
        some "/_plugins/_security/api/rolesmapping/") ∧
    (∀ r : PatchSecurityRoleMappingRequest,
      (r.Do ctx ro).newRequestArgs.map (fun a => a.2.1) =
        some ("/_plugins/_security/api/rolesmapping/" ++ r.Name) ∧
      (({ r with Name := "" } : PatchSecurityRoleMappingRequest).Do ctx ro).newRequestArgs.map (fun a => a.2.1) =
        some "/_plugins/_security/api/rolesmapping/") :=
  ⟨fun _ => ⟨rfl, rfl⟩, fun _ => ⟨rfl, rfl⟩, fun _ => ⟨rfl, rfl⟩⟩

/-- C2: the method handed to `newRequest` is `PUT` for create, `GET` for get,
`PATCH` for patch-single and `PATCH` for bulk-upsert, whatever the fields of
the request, and `Do` leaves the method of the request it got back untouched. -/
theorem method_fixed_per_endpoint (ctx : Option Context) (ro : GoMap String → GoMap String)
    (req : Request) :
    (∀ r : CreateSecurityRoleMappingRequest,
      (r.Do ctx ro).newRequestArgs.map (fun a => a.1) = some "PUT" ∧
      ((r.Do ctx ro).afterNewRequest (.ok req)).performArg.map Request.Method =
        some req.Method) ∧
    (∀ r : GetSecurityRoleMappingRequest,
      (r.Do ctx ro).newRequestArgs.map (fun a => a.1) = some "GET" ∧
      ((r.Do ctx ro).afterNewRequest (.ok req)).performArg.map Request.Method =
        some req.Method) ∧
    (∀ r : PatchSecurityRoleMappingRequest,
      (r.Do ctx ro).newRequestArgs.map (fun a => a.1) = some "PATCH" ∧
      ((r.Do ctx ro).afterNewRequest (.ok req)).performArg.map Request.Method =
        some req.Method) ∧
    (∀ r : BulkUpsertSecurityRuleMappingRequest,
      (r.Do ctx ro).newRequestArgs.map (fun a => a.1) = some "PATCH" ∧
      ((r.Do ctx ro).afterNewRequest (.ok req)).performArg.map Request.Method =
        some req.Method) := by
  refine ⟨fun r => ⟨rfl, ?_⟩, fun r => ⟨rfl, ?_⟩, fun r => ⟨rfl, ?_⟩, fun r => ⟨rfl, ?_⟩⟩
  · exact congrArg some (prepared_method_body r.Pretty r.Human r.ErrorTrace r.FilterPath
      r.Header ctx ro req).1
  · exact congrArg some (prepared_method_body r.Pretty r.Human r.ErrorTrace r.FilterPath
      r.Header ctx ro req).1
  · exact congrArg some (prepared_method_body r.Pretty r.Human r.ErrorTrace r.FilterPath
      r.Header ctx ro req).1
  · exact congrArg some (prepared_method_body r.Pretty r.Human r.ErrorTrace r.FilterPath
      r.Header ctx ro req).1

theorem queryWritten_prepared (p h e : Bool) (fp : List String) (caller : Option Header)
    (ctx : Option Context) (ro : GoMap String → GoMap String) (hro : ∀ l, (ro l).Perm l)
    (req : Request) : QueryWritten p h e fp req (prepared p h e fp caller ctx ro req) := by
  have hq := prepared_rawQuery p h e fp caller ctx ro hro req
  refine ⟨prepared_path p h e fp caller ctx ro req, ?_, ?_, ?_⟩
  · intro h0
    rw [hq, if_pos h0]
  · intro h0
    refine ⟨by rw [hq, if_neg h0], fun k => ?_⟩
    exact setAll_index _ (expectedPairs_keys_nodup p h e fp) _ k
  · intro h0 hnil
    rw [hq, if_neg h0, hnil]
    exact encode_setAll_nil _ (expectedPairs_keys_nodup p h e fp)
      (expectedPairs_keys_sorted p h e fp)

/-- C3, as the code has it: for each of the four endpoints, whatever the order
in which the map of parameters is visited, the request handed to the transport
satisfies `QueryWritten`: the raw query is left alone when no flag applies, and
otherwise is the encoding, keys ascending, of the query already carried by the
request with `pretty`, `human`, `error_trace`, `filter_path` set as the flags
call for (no other key is added); if `URL.Query` finds no parameter on the
request, it is the encoding of exactly these pairs. -/
theorem query_written_by_Do (ctx : Option Context) (ro : GoMap String → GoMap String)
    (hro : ∀ l, (ro l).Perm l) (req : Request) :
    (∀ r : CreateSecurityRoleMappingRequest, ∃ req',
      ((r.Do ctx ro).afterNewRequest (.ok req)).performArg = some req' ∧
      QueryWritten r.Pretty r.Human r.ErrorTrace r.FilterPath req req') ∧
    (∀ r : GetSecurityRoleMappingRequest, ∃ req',
      ((r.Do ctx ro).afterNewRequest (.ok req)).performArg = some req' ∧
      QueryWritten r.Pretty r.Human r.ErrorTrace r.FilterPath req req') ∧
    (∀ r : PatchSecurityRoleMappingRequest, ∃ req',
      ((r.Do ctx ro).afterNewRequest (.ok req)).performArg = some req' ∧
      QueryWritten r.Pretty r.Human r.ErrorTrace r.FilterPath req req') ∧
    (∀ r : BulkUpsertSecurityRuleMappingRequest, ∃ req',
      ((r.Do ctx ro).afterNewRequest (.ok req)).performArg = some req' ∧
      QueryWritten r.Pretty r.Human r.ErrorTrace r.FilterPath req req') :=
  ⟨fun r => ⟨_, rfl, queryWritten_prepared r.Pretty r.Human r.ErrorTrace r.FilterPath
      r.Header ctx ro hro req⟩,
   fun r => ⟨_, rfl, queryWritten_prepared r.Pretty r.Human r.ErrorTrace r.FilterPath
      r.Header ctx ro hro req⟩,
   fun r => ⟨_, rfl, queryWritten_prepared r.Pretty r.Human r.ErrorTrace r.FilterPath
      r.Header ctx ro hro req⟩,
   fun r => ⟨_, rfl, queryWritten_prepared r.Pretty r.Human r.ErrorTrace r.FilterPath
      r.Header ctx ro hro req⟩⟩

/-- C3 at a concrete input: a create request with `Pretty` and `FilterPath`,
the parameters visited in reverse order, on a request carrying the query `x=1`. -/
theorem query_written_by_Do_witness :
    (∀ l : GoMap String, (List.reverse l).Perm l) ∧
    ∃ req', ((({ Name := "all_access", Pretty := true, FilterPath := ["a", "b"] } :
        CreateSecurityRoleMappingRequest).Do none List.reverse).afterNewRequest
          (.ok { Method := "PUT",
                 URL := { Path := "/_plugins/_security/api/rolesmapping/all_access",
                          RawQuery := "x=1" },
                 Header := none, Body := none, ctx := none })).performArg = some req' ∧
      QueryWritten true false false ["a", "b"]
        { Method := "PUT",
          URL := { Path := "/_plugins/_security/api/rolesmapping/all_access", RawQuery := "x=1" },
          Header := none, Body := none, ctx := none } req' :=
  ⟨fun l => List.reverse_perm l,
   (query_written_by_Do none List.reverse (fun l => List.reverse_perm l)
      { Method := "PUT",
        URL := { Path := "/_plugins/_security/api/rolesmapping/all_access", RawQuery := "x=1" },
        Header := none, Body := none, ctx := none }).1
      { Name := "all_access", Pretty := true, FilterPath := ["a", "b"] }⟩

/-- C3 as stated fails: take the create request named `all_access?x=1` with
only `Pretty` set, and let `newRequest` return the request that Go's
`http.NewRequest` builds for its path, with path `.../all_access` and raw query
`x=1`. `Do` then hands on the raw query `pretty=true&x=1`, which is not the
encoding `pretty=true` of the pairs called for by the flags. -/
theorem query_keeps_existing_parameters :
    (({ Name := "all_access?x=1", Pretty := true } :
        CreateSecurityRoleMappingRequest).Do none id).newRequestArgs =
      some ("PUT", "/_plugins/_security/api/rolesmapping/all_access?x=1", none) ∧
    ((({ Name := "all_access?x=1", Pretty := true } :
        CreateSecurityRoleMappingRequest).Do none id).afterNewRequest
          (.ok { Method := "PUT",
                 URL := { Path := "/_plugins/_security/api/rolesmapping/all_access",
                          RawQuery := "x=1" },
                 Header := none, Body := none, ctx := none })).performArg.map
        (fun q => q.URL.RawQuery) = some "pretty=true&x=1" ∧
    encodePairs (expectedPairs true false false []) = "pretty=true" ∧
    "pretty=true&x=1" ≠ encodePairs (expectedPairs true false false []) := by
  refine ⟨by decide, by decide, by decide, by decide⟩


theorem headerLen_eq_zero_values (reqH : Option Header) (h : headerLen reqH = 0) (c : String) :
    MapValues (reqH.getD []) c = [] := by
  cases reqH with
  | none => rfl
  | some m =>
    have : m = [] := List.eq_nil_of_length_eq_zero h
    subst this
    rfl

theorem headerMerged_mergeHeader (caller : Option Header) (req : Request) :
    HeaderMerged caller req.Header (mergeHeader caller req).Header := by
  refine ⟨?_, ?_, ?_, ?_⟩
  · intro h0
    have : ¬ headerLen caller > 0 := by omega
    simp [mergeHeader, this]
  · intro h0 h1
    simp [mergeHeader, h0, h1]
  · intro h0 h1
    have h1' : ¬ headerLen req.Header = 0 := by omega
    refine ⟨addAll (caller.getD []) (req.Header.getD []), ?_, ?_, ?_⟩
    · simp [mergeHeader, h0, h1']
    · exact fun c => MapValues_addAll _ _ c
    · intro hnd hcan
      refine ⟨fun k _ => ?_, fun k hk => ?_⟩
      · rw [MapValues_addAll, mergedUnder_of_canonical _ hnd hcan]
      · rw [MapValues_addAll, mergedUnder_of_canonical _ hnd hcan, MapValues_of_not_mem _ k hk]
        simp
  · intro c
    by_cases h0 : headerLen caller > 0
    · by_cases h1 : headerLen req.Header = 0
      · rw [headerLen_eq_zero_values _ h1]
        exact ⟨_, rfl⟩
      · have : (mergeHeader caller req).Header =
            some (addAll (caller.getD []) (req.Header.getD [])) := by
          simp [mergeHeader, h0, h1]
        rw [this]
        simp only [Option.getD_some]
        rw [MapValues_addAll]
        exact ⟨_, rfl⟩
    · have : (mergeHeader caller req).Header = req.Header := by
        simp [mergeHeader, h0]
      rw [this]

theorem headerMerged_prepared (p h e : Bool) (fp : List String) (caller : Option Header)
    (ctx : Option Context) (ro : GoMap String → GoMap String) (req : Request) :
    HeaderMerged caller req.Header (prepared p h e fp caller ctx ro req).Header := by
  rw [prepared_header]
  exact headerMerged_mergeHeader caller req

/-- C4, as the code has it: for each of the four endpoints the headers of the
request handed to the transport satisfy `HeaderMerged`: with no caller headers
they are those of the request returned by `newRequest`; with caller headers
and none on the request they are the caller's collection itself; with both,
every canonical key holds its previous values followed by the values of the
caller keys whose canonical form it is, in visiting order, which for distinct
caller keys already canonical means previous values then caller values under
each caller key and no change under any other key. In every case the values
already carried stay in front under their key. -/
theorem header_merge_by_Do (ctx : Option Context) (ro : GoMap String → GoMap String)
    (req : Request) :
    (∀ r : CreateSecurityRoleMappingRequest, ∃ req',
      ((r.Do ctx ro).afterNewRequest (.ok req)).performArg = some req' ∧
      HeaderMerged r.Header req.Header req'.Header) ∧
    (∀ r : GetSecurityRoleMappingRequest, ∃ req',
      ((r.Do ctx ro).afterNewRequest (.ok req)).performArg = some req' ∧
      HeaderMerged r.Header req.Header req'.Header) ∧
    (∀ r : PatchSecurityRoleMappingRequest, ∃ req',
      ((r.Do ctx ro).afterNewRequest (.ok req)).performArg = some req' ∧
      HeaderMerged r.Header req.Header req'.Header) ∧
    (∀ r : BulkUpsertSecurityRuleMappingRequest, ∃ req',
      ((r.Do ctx ro).afterNewRequest (.ok req)).performArg = some req' ∧
      HeaderMerged r.Header req.Header req'.Header) :=
  ⟨fun r => ⟨_, rfl, headerMerged_prepared r.Pretty r.Human r.ErrorTrace r.FilterPath
      r.Header ctx ro req⟩,
   fun r => ⟨_, rfl, headerMerged_prepared r.Pretty r.Human r.ErrorTrace r.FilterPath
      r.Header ctx ro req⟩,
   fun r => ⟨_, rfl, headerMerged_prepared r.Pretty r.Human r.ErrorTrace r.FilterPath
      r.Header ctx ro req⟩,
   fun r => ⟨_, rfl, headerMerged_prepared r.Pretty r.Human r.ErrorTrace r.FilterPath
      r.Header ctx ro req⟩⟩

/-- C4 at a concrete input: a get request whose caller headers are canonical,
on a request that already carries two headers. -/
theorem header_merge_by_Do_witness :
    ∃ req', ((({ Name := "all_access",
                 Header := some [("Accept", ["a/b"]), ("X-Opaque-Id", ["7"])] } :
        GetSecurityRoleMappingRequest).Do none id).afterNewRequest
          (.ok { Method := "GET",
                 URL := { Path := "/_plugins/_security/api/rolesmapping/all_access",
                          RawQuery := "" },
                 Header := some [("Accept", ["c/d"]), ("User-Agent", ["go"])],
                 Body := none, ctx := none })).performArg = some req' ∧
      HeaderMerged (some [("Accept", ["a/b"]), ("X-Opaque-Id", ["7"])])
        (some [("Accept", ["c/d"]), ("User-Agent", ["go"])]) req'.Header :=
  (header_merge_by_Do none id
      { Method := "GET",
        URL := { Path := "/_plugins/_security/api/rolesmapping/all_access", RawQuery := "" },
        Header := some [("Accept", ["c/d"]), ("User-Agent", ["go"])],
        Body := none, ctx := none }).2.1
    { Name := "all_access", Header := some [("Accept", ["a/b"]), ("X-Opaque-Id", ["7"])] }

/-- C4 as stated fails: with the caller header `x-a: 1` (a key that is not in
canonical form) on a request carrying `X-A: 0`, the value is added under `X-A`:
the caller key `x-a` does not hold the previous values followed by `1`, and
`X-A`, which is no caller key, does not keep its previous values. -/
theorem header_merge_canonicalises_caller_keys :
    ((({ Name := "all_access", Header := some [("x-a", ["1"])] } :
        GetSecurityRoleMappingRequest).Do none id).afterNewRequest
          (.ok { Method := "GET",
                 URL := { Path := "/_plugins/_security/api/rolesmapping/all_access",
                          RawQuery := "" },
                 Header := some [("X-A", ["0"])],
                 Body := none, ctx := none })).performArg.map Request.Header =
        some (some [("X-A", ["0", "1"])]) ∧
    ¬ HeaderMergeClaimed (some [("x-a", ["1"])]) (some [("X-A", ["0"])])
        (some [("X-A", ["0", "1"])]) := by
  refine ⟨by decide, fun h => ?_⟩
  have h1 := (h (by decide) (by decide)).2 "X-A" (by decide)
  revert h1
  decide


theorem run_delegate {σ : Type}
    (nr : String → String → Option Reader → Except GoError Request) (t : Transport σ) (s : σ)
    (req' : Request) :
    Delegated t s req' (Prog.run nr t (delegate req') s) ∧
    (Prog.run nr t (delegate req') s).newRequestCalls = [] := by
  unfold Delegated delegate
  cases h : (t.Perform s req').1 with
  | error e => simp [Prog.run, h]
  | ok res => simp [Prog.run, h]

theorem run_newRequest {σ : Type}
    (nr : String → String → Option Reader → Except GoError Request) (t : Transport σ) (s : σ)
    (method path : String) (body : Option Reader) (k : Except GoError Request → Prog) :
    Prog.run nr t (Prog.newRequest method path body k) s =
      { Prog.run nr t (k (nr method path body)) s with
        newRequestCalls :=
          (method, path, body) :: (Prog.run nr t (k (nr method path body)) s).newRequestCalls } :=
  rfl

theorem run_doShape {σ : Type}
    (nr : String → String → Option Reader → Except GoError Request) (t : Transport σ) (s : σ)
    (method path : String) (body : Option Reader) (p h e : Bool) (fp : List String)
    (caller : Option Header) (ctx : Option Context) (ro : GoMap String → GoMap String) :
    (Prog.run nr t (doShape method path body p h e fp caller ctx ro) s).newRequestCalls =
        [(method, path, body)] ∧
    (∀ req, nr method path body = .ok req →
      Delegated t s (prepared p h e fp caller ctx ro req)
        (Prog.run nr t (doShape method path body p h e fp caller ctx ro) s)) ∧
    (∀ err, nr method path body = .error err →
      (Prog.run nr t (doShape method path body p h e fp caller ctx ro) s).performCalls = [] ∧
      (Prog.run nr t (doShape method path body p h e fp caller ctx ro) s).response = none ∧
      (Prog.run nr t (doShape method path body p h e fp caller ctx ro) s).err = some err ∧
      (Prog.run nr t (doShape method path body p h e fp caller ctx ro) s).state = s) := by
  unfold doShape
  rw [run_newRequest]
  refine ⟨?_, ?_, ?_⟩
  · cases hnr : nr method path body with
    | error err => simp [Prog.run]
    | ok req =>
      have := (run_delegate nr t s (prepared p h e fp caller ctx ro req)).2
      simp only [this]
  · intro req hnr
    have := (run_delegate nr t s (prepared p h e fp caller ctx ro req)).1
    unfold Delegated at this ⊢
    rw [hnr]
    exact this
  · intro err hnr
    rw [hnr]
    simp [Prog.run]

/-- C5: for each of the four endpoints, any function `newRequest` and any
transport in any state: when `newRequest` returns a request, the run of `Do`
calls `Perform` exactly once, on the request `Do` prepared, and returns its
outcome unchanged: on an error `e` a nil response with exactly `e`, on a
result `res` a nil error with a response of the same `StatusCode`, `Body` and
`Header`. -/
theorem transport_outcome_returned {σ : Type}
    (nr : String → String → Option Reader → Except GoError Request) (t : Transport σ) (s : σ)
    (ctx : Option Context) (ro : GoMap String → GoMap String) (req : Request) :
    (∀ r : CreateSecurityRoleMappingRequest,
      nr "PUT" ("/_plugins/_security/api/rolesmapping/" ++ r.Name) r.Body = .ok req →
      ∃ req', ((r.Do ctx ro).afterNewRequest (.ok req)).performArg = some req' ∧
        Delegated t s req' (Prog.run nr t (r.Do ctx ro) s)) ∧
    (∀ r : GetSecurityRoleMappingRequest,
      nr "GET" ("/_plugins/_security/api/rolesmapping/" ++ r.Name) none = .ok req →
      ∃ req', ((r.Do ctx ro).afterNewRequest (.ok req)).performArg = some req' ∧
        Delegated t s req' (Prog.run nr t (r.Do ctx ro) s)) ∧
    (∀ r : PatchSecurityRoleMappingRequest,
      nr "PATCH" ("/_plugins/_security/api/rolesmapping/" ++ r.Name) r.Body = .ok req →
      ∃ req', ((r.Do ctx ro).afterNewRequest (.ok req)).performArg = some req' ∧
        Delegated t s req' (Prog.run nr t (r.Do ctx ro) s)) ∧
    (∀ r : BulkUpsertSecurityRuleMappingRequest,
      nr "PATCH" "/_plugins/_security/api/rolesmapping/" r.Body = .ok req →
      ∃ req', ((r.Do ctx ro).afterNewRequest (.ok req)).performArg = some req' ∧
        Delegated t s req' (Prog.run nr t (r.Do ctx ro) s)) := by
  refine ⟨fun r hnr => ⟨_, rfl, ?_⟩, fun r hnr => ⟨_, rfl, ?_⟩, fun r hnr => ⟨_, rfl, ?_⟩,
    fun r hnr => ⟨_, rfl, ?_⟩⟩
  · rw [create_Do_eq]
    exact (run_doShape nr t s _ _ _ _ _ _ _ _ ctx ro).2.1 req hnr
  · rw [get_Do_eq]
    exact (run_doShape nr t s _ _ _ _ _ _ _ _ ctx ro).2.1 req hnr
  · rw [patch_Do_eq]
    exact (run_doShape nr t s _ _ _ _ _ _ _ _ ctx ro).2.1 req hnr
  · rw [bulk_Do_eq]
    exact (run_doShape nr t s _ _ _ _ _ _ _ _ ctx ro).2.1 req hnr

/-- C5 at a concrete input: a get request, a `newRequest` that succeeds and a
transport that counts its calls. -/
theorem transport_outcome_returned_witness :
    plainNewRequest "GET" ("/_plugins/_security/api/rolesmapping/" ++ "all_access") none =
      .ok { Method := "GET",
            URL := { Path := "/_plugins/_security/api/rolesmapping/all_access", RawQuery := "" },
            Header := some [], Body := none, ctx := none } ∧
    ∃ req', ((({ Name := "all_access" } : GetSecurityRoleMappingRequest).Do none id).afterNewRequest
        (.ok { Method := "GET",
               URL := { Path := "/_plugins/_security/api/rolesmapping/all_access",
                        RawQuery := "" },
               Header := some [], Body := none, ctx := none })).performArg = some req' ∧
      Delegated countingTransport 0 req'
        (Prog.run plainNewRequest countingTransport
          (({ Name := "all_access" } : GetSecurityRoleMappingRequest).Do none id) 0) :=
  ⟨rfl, (transport_outcome_returned plainNewRequest countingTransport 0 none id
      { Method := "GET",
        URL := { Path := "/_plugins/_security/api/rolesmapping/all_access", RawQuery := "" },
        Header := some [], Body := none, ctx := none }).2.1 { Name := "all_access" } rfl⟩


theorem errorPassedOn_doShape {σ : Type}
    (nr : String → String → Option Reader → Except GoError Request) (t : Transport σ) (s : σ)
    (method path : String) (body : Option Reader) (p h e : Bool) (fp : List String)
    (caller : Option Header) (ctx : Option Context) (ro : GoMap String → GoMap String)
    (err : GoError)
    (herr : (Prog.run nr t (doShape method path body p h e fp caller ctx ro) s).err = some err) :
    ErrorPassedOn (nr method path body) t s err
      (Prog.run nr t (doShape method path body p h e fp caller ctx ro) s) := by
  have hrun := run_doShape nr t s method path body p h e fp caller ctx ro
  cases hnr : nr method path body with
  | error e0 =>
    obtain ⟨h1, h2, h3, _⟩ := hrun.2.2 e0 hnr
    rw [h3] at herr
    have : e0 = err := Option.some.inj herr
    subst this
    exact Or.inl ⟨rfl, h1, h2⟩
  | ok req =>
    have hd := hrun.2.1 req hnr
    unfold Delegated at hd
    obtain ⟨h1, _, h3⟩ := hd
    cases hp : (t.Perform s (prepared p h e fp caller ctx ro req)).1 with
    | error e1 =>
      rw [hp] at h3
      simp only at h3
      rw [h3.2] at herr
      have : e1 = err := Option.some.inj herr
      subst this
      exact Or.inr ⟨req, _, rfl, h1, hp, h3.1⟩
    | ok res =>
      rw [hp] at h3
      simp only at h3
      rw [h3.2] at herr
      exact absurd herr (by simp)

/-- C6, as the code has it: for each of the four endpoints, any `newRequest`
and any transport, `Do` calls `newRequest` once with its method, path and body
whatever `Name`, `Body` and the flags are, and an error returned by `Do` is
either the error returned by `newRequest`, the transport not being called, or
the error returned by the one call of `Perform`; it is passed on unchanged. -/
theorem errors_are_passed_on {σ : Type}
    (nr : String → String → Option Reader → Except GoError Request) (t : Transport σ) (s : σ)
    (ctx : Option Context) (ro : GoMap String → GoMap String) (e : GoError) :
    (∀ r : CreateSecurityRoleMappingRequest,
      (Prog.run nr t (r.Do ctx ro) s).newRequestCalls =
        [("PUT", "/_plugins/_security/api/rolesmapping/" ++ r.Name, r.Body)] ∧
      ((Prog.run nr t (r.Do ctx ro) s).err = some e →
        ErrorPassedOn (nr "PUT" ("/_plugins/_security/api/rolesmapping/" ++ r.Name) r.Body)
          t s e (Prog.run nr t (r.Do ctx ro) s))) ∧
    (∀ r : GetSecurityRoleMappingRequest,
      (Prog.run nr t (r.Do ctx ro) s).newRequestCalls =
        [("GET", "/_plugins/_security/api/rolesmapping/" ++ r.Name, none)] ∧
      ((Prog.run nr t (r.Do ctx ro) s).err = some e →
        ErrorPassedOn (nr "GET" ("/_plugins/_security/api/rolesmapping/" ++ r.Name) none)
          t s e (Prog.run nr t (r.Do ctx ro) s))) ∧
    (∀ r : PatchSecurityRoleMappingRequest,
      (Prog.run nr t (r.Do ctx ro) s).newRequestCalls =
        [("PATCH", "/_plugins/_security/api/rolesmapping/" ++ r.Name, r.Body)] ∧
      ((Prog.run nr t (r.Do ctx ro) s).err = some e →
        ErrorPassedOn (nr "PATCH" ("/_plugins/_security/api/rolesmapping/" ++ r.Name) r.Body)
          t s e (Prog.run nr t (r.Do ctx ro) s))) ∧
    (∀ r : BulkUpsertSecurityRuleMappingRequest,
      (Prog.run nr t (r.Do ctx ro) s).newRequestCalls =
        [("PATCH", "/_plugins/_security/api/rolesmapping/", r.Body)] ∧
      ((Prog.run nr t (r.Do ctx ro) s).err = some e →
        ErrorPassedOn (nr "PATCH" "/_plugins/_security/api/rolesmapping/" r.Body)
          t s e (Prog.run nr t (r.Do ctx ro) s))) := by
  refine ⟨fun r => ?_, fun r => ?_, fun r => ?_, fun r => ?_⟩
  · rw [create_Do_eq]
    exact ⟨(run_doShape nr t s _ _ _ _ _ _ _ _ ctx ro).1,
      errorPassedOn_doShape nr t s _ _ _ _ _ _ _ _ ctx ro e⟩
  · rw [get_Do_eq]
    exact ⟨(run_doShape nr t s _ _ _ _ _ _ _ _ ctx ro).1,
      errorPassedOn_doShape nr t s _ _ _ _ _ _ _ _ ctx ro e⟩
  · rw [patch_Do_eq]
    exact ⟨(run_doShape nr t s _ _ _ _ _ _ _ _ ctx ro).1,
      errorPassedOn_doShape nr t s _ _ _ _ _ _ _ _ ctx ro e⟩
  · rw [bulk_Do_eq]
    exact ⟨(run_doShape nr t s _ _ _ _ _ _ _ _ ctx ro).1,
      errorPassedOn_doShape nr t s _ _ _ _ _ _ _ _ ctx ro e⟩

/-- C6 at a concrete input: a create request on a transport that refuses the
method `PUT`; the error returned is the one of the transport. -/
theorem errors_are_passed_on_witness :
    (Prog.run plainNewRequest countingTransport
      (({ Name := "all_access" } : CreateSecurityRoleMappingRequest).Do none id) 0).err =
        some { msg := "connection refused" } ∧
    ErrorPassedOn
      (plainNewRequest "PUT" ("/_plugins/_security/api/rolesmapping/" ++ "all_access") none)
      countingTransport 0 { msg := "connection refused" }
      (Prog.run plainNewRequest countingTransport
        (({ Name := "all_access" } : CreateSecurityRoleMappingRequest).Do none id) 0) :=
  ⟨by decide,
   ((errors_are_passed_on plainNewRequest countingTransport 0 none id
      { msg := "connection refused" }).1 { Name := "all_access" }).2 (by decide)⟩

/-- C6 as stated fails: when `newRequest` returns an error, `Do` returns that
error although the transport returned none: `Perform` was not called at all
and the state of the transport is untouched. -/
theorem error_of_newRequest_is_returned :
    (Prog.run failingNewRequest countingTransport
      (({ Name := "all_access" } : CreateSecurityRoleMappingRequest).Do none id) 0).err =
        some { msg := "net/http: invalid method" } ∧
    (Prog.run failingNewRequest countingTransport
      (({ Name := "all_access" } : CreateSecurityRoleMappingRequest).Do none id) 0).performCalls =
        [] ∧
    (Prog.run failingNewRequest countingTransport
      (({ Name := "all_access" } : CreateSecurityRoleMappingRequest).Do none id) 0).state = 0 := by
  refine ⟨by decide, by decide, by decide⟩

/-- C7, as the code has it: from the same field values the four `Do` hand the
outcome of `newRequest` to one and the same continuation (query, headers,
context, call of the transport, wrapping of the result), and they call
`newRequest` with the method of the endpoint, with the base path followed by
`Name` for create, get and patch-single but the bare base path for bulk-upsert, and with
`Body` for create, patch-single and bulk-upsert but a nil body for get. So
patch-single and bulk-upsert coincide when `Name` is empty. -/
theorem endpoints_differ_in_method_path_body (name : String) (body : Option Reader)
    (pretty human errorTrace : Bool) (filterPath : List String) (header : Option Header)
    (c ctx : Option Context) (ro : GoMap String → GoMap String) :
    (∃ k : Except GoError Request → Prog,
      ({ Name := name, Body := body, Pretty := pretty, Human := human, ErrorTrace := errorTrace,
         FilterPath := filterPath, Header := header, ctx := c } :
        CreateSecurityRoleMappingRequest).Do ctx ro =
        Prog.newRequest "PUT" ("/_plugins/_security/api/rolesmapping/" ++ name) body k ∧
      ({ Name := name, Pretty := pretty, Human := human, ErrorTrace := errorTrace,
         FilterPath := filterPath, Header := header, ctx := c } :
        GetSecurityRoleMappingRequest).Do ctx ro =
        Prog.newRequest "GET" ("/_plugins/_security/api/rolesmapping/" ++ name) none k ∧
      ({ Name := name, Body := body, Pretty := pretty, Human := human, ErrorTrace := errorTrace,
         FilterPath := filterPath, Header := header, ctx := c } :
        PatchSecurityRoleMappingRequest).Do ctx ro =
        Prog.newRequest "PATCH" ("/_plugins/_security/api/rolesmapping/" ++ name) body k ∧
      ({ Name := name, Body := body, Pretty := pretty, Human := human, ErrorTrace := errorTrace,
         FilterPath := filterPath, Header := header, ctx := c } :
        BulkUpsertSecurityRuleMappingRequest).Do ctx ro =
        Prog.newRequest "PATCH" "/_plugins/_security/api/rolesmapping/" body k) ∧
    ({ Name := "", Body := body, Pretty := pretty, Human := human, ErrorTrace := errorTrace,
       FilterPath := filterPath, Header := header, ctx := c } :
      PatchSecurityRoleMappingRequest).Do ctx ro =
    ({ Name := name, Body := body, Pretty := pretty, Human := human, ErrorTrace := errorTrace,
       FilterPath := filterPath, Header := header, ctx := c } :
      BulkUpsertSecurityRuleMappingRequest).Do ctx ro :=
  ⟨⟨_, rfl, rfl, rfl, rfl⟩, rfl⟩

/-- C7 as stated fails: from the same fields, with `Name` and `Body` set, the
patch-single and the bulk-upsert request are built on different paths, and the
get request is built without the body that create passes on. -/
theorem endpoints_do_not_agree_on_path_and_body :
    (({ Name := "all_access", Body := some { data := "[]" } } :
        PatchSecurityRoleMappingRequest).Do none id).newRequestArgs =
      some ("PATCH", "/_plugins/_security/api/rolesmapping/all_access", some { data := "[]" }) ∧
    (({ Name := "all_access", Body := some { data := "[]" } } :
        BulkUpsertSecurityRuleMappingRequest).Do none id).newRequestArgs =
      some ("PATCH", "/_plugins/_security/api/rolesmapping/", some { data := "[]" }) ∧
    (({ Name := "all_access", Body := some { data := "[]" } } :
        CreateSecurityRoleMappingRequest).Do none id).newRequestArgs =
      some ("PUT", "/_plugins/_security/api/rolesmapping/all_access", some { data := "[]" }) ∧
    (({ Name := "all_access" } : GetSecurityRoleMappingRequest).Do none id).newRequestArgs =
      some ("GET", "/_plugins/_security/api/rolesmapping/all_access", none) ∧
    (({ Name := "all_access", Body := some { data := "[]" } } :
        PatchSecurityRoleMappingRequest).Do none id).newRequestArgs ≠
    (({ Name := "all_access", Body := some { data := "[]" } } :
        BulkUpsertSecurityRuleMappingRequest).Do none id).newRequestArgs := by
  refine ⟨by decide, by decide, by decide, by decide, by decide⟩


theorem set_opaque_index (h : Header) (s k : String) :
    MapIndex (Header.Set h "X-Opaque-Id" s) k =
      if k = "X-Opaque-Id" then some [s] else MapIndex h k := by
  unfold Header.Set
  rw [canonical_opaque_id, MapIndex_assign]
  by_cases hk : k = "X-Opaque-Id"
  · simp [hk]
  · have : ¬ "X-Opaque-Id" = k := fun hh => hk hh.symm
    simp [hk, this]

theorem set_opaque_twice (h : Header) (s s2 : String) :
    Header.Set (Header.Set h "X-Opaque-Id" s) "X-Opaque-Id" s2 = Header.Set h "X-Opaque-Id" s2 := by
  unfold Header.Set
  exact MapAssign_assign h _ [s] [s2]

/-- C8: for each of the four endpoints, `WithOpaqueID(s)` changes nothing of
the request but `Header`, which afterwards is non-nil and holds under the key
`X-Opaque-Id` the single value `s`, whatever that key held before, and under
every other key what it held before (a nil `Header` counting as empty).
Applying the option twice equals applying it once, and of two such options the
later one wins. -/
theorem withOpaqueID_sets_one_value (s s2 : String) :
    (∀ r : CreateSecurityRoleMappingRequest,
      CreateSecurityRoleMapping.WithOpaqueID s r =
        { r with Header := some (Header.Set (r.Header.getD []) "X-Opaque-Id" s) } ∧
      (∀ k, MapIndex (Header.Set (r.Header.getD []) "X-Opaque-Id" s) k =
        if k = "X-Opaque-Id" then some [s] else MapIndex (r.Header.getD []) k) ∧
      CreateSecurityRoleMapping.WithOpaqueID s (CreateSecurityRoleMapping.WithOpaqueID s r) =
        CreateSecurityRoleMapping.WithOpaqueID s r ∧
      CreateSecurityRoleMapping.WithOpaqueID s2 (CreateSecurityRoleMapping.WithOpaqueID s r) =
        CreateSecurityRoleMapping.WithOpaqueID s2 r) ∧
    (∀ r : GetSecurityRoleMappingRequest,
      GetSecurityRoleMapping.WithOpaqueID s r =
        { r with Header := some (Header.Set (r.Header.getD []) "X-Opaque-Id" s) } ∧
      (∀ k, MapIndex (Header.Set (r.Header.getD []) "X-Opaque-Id" s) k =
        if k = "X-Opaque-Id" then some [s] else MapIndex (r.Header.getD []) k) ∧
      GetSecurityRoleMapping.WithOpaqueID s (GetSecurityRoleMapping.WithOpaqueID s r) =
        GetSecurityRoleMapping.WithOpaqueID s r ∧
      GetSecurityRoleMapping.WithOpaqueID s2 (GetSecurityRoleMapping.WithOpaqueID s r) =
        GetSecurityRoleMapping.WithOpaqueID s2 r) ∧
    (∀ r : PatchSecurityRoleMappingRequest,
      PatchSecurityRoleMapping.WithOpaqueID s r =
        { r with Header := some (Header.Set (r.Header.getD []) "X-Opaque-Id" s) } ∧
      (∀ k, MapIndex (Header.Set (r.Header.getD []) "X-Opaque-Id" s) k =
        if k = "X-Opaque-Id" then some [s] else MapIndex (r.Header.getD []) k) ∧
      PatchSecurityRoleMapping.WithOpaqueID s (PatchSecurityRoleMapping.WithOpaqueID s r) =
        PatchSecurityRoleMapping.WithOpaqueID s r ∧
      PatchSecurityRoleMapping.WithOpaqueID s2 (PatchSecurityRoleMapping.WithOpaqueID s r) =
        PatchSecurityRoleMapping.WithOpaqueID s2 r) ∧
    (∀ r : BulkUpsertSecurityRuleMappingRequest,
      BulkUpsertSecurityRuleMapping.WithOpaqueID s r =
        { r with Header := some (Header.Set (r.Header.getD []) "X-Opaque-Id" s) } ∧
      (∀ k, MapIndex (Header.Set (r.Header.getD []) "X-Opaque-Id" s) k =
        if k = "X-Opaque-Id" then some [s] else MapIndex (r.Header.getD []) k) ∧
      BulkUpsertSecurityRuleMapping.WithOpaqueID s
          (BulkUpsertSecurityRuleMapping.WithOpaqueID s r) =
        BulkUpsertSecurityRuleMapping.WithOpaqueID s r ∧
      BulkUpsertSecurityRuleMapping.WithOpaqueID s2
          (BulkUpsertSecurityRuleMapping.WithOpaqueID s r) =
        BulkUpsertSecurityRuleMapping.WithOpaqueID s2 r) := by
  refine ⟨fun r => ?_, fun r => ?_, fun r => ?_, fun r => ?_⟩
  · refine ⟨?_, fun k => set_opaque_index _ s k, ?_, ?_⟩
    · cases h : r.Header <;> simp [CreateSecurityRoleMapping.WithOpaqueID, h]
    · cases h : r.Header <;>
        simp [CreateSecurityRoleMapping.WithOpaqueID, h, set_opaque_twice]
    · cases h : r.Header <;>
        simp [CreateSecurityRoleMapping.WithOpaqueID, h, set_opaque_twice]
  · refine ⟨?_, fun k => set_opaque_index _ s k, ?_, ?_⟩
    · cases h : r.Header <;> simp [GetSecurityRoleMapping.WithOpaqueID, h]
    · cases h : r.Header <;>
        simp [GetSecurityRoleMapping.WithOpaqueID, h, set_opaque_twice]
    · cases h : r.Header <;>
        simp [GetSecurityRoleMapping.WithOpaqueID, h, set_opaque_twice]
  · refine ⟨?_, fun k => set_opaque_index _ s k, ?_, ?_⟩
    · cases h : r.Header <;> simp [PatchSecurityRoleMapping.WithOpaqueID, h]
    · cases h : r.Header <;>
        simp [PatchSecurityRoleMapping.WithOpaqueID, h, set_opaque_twice]
    · cases h : r.Header <;>
        simp [PatchSecurityRoleMapping.WithOpaqueID, h, set_opaque_twice]
  · refine ⟨?_, fun k => set_opaque_index _ s k, ?_, ?_⟩
    · cases h : r.Header <;> simp [BulkUpsertSecurityRuleMapping.WithOpaqueID, h]
    · cases h : r.Header <;>
        simp [BulkUpsertSecurityRuleMapping.WithOpaqueID, h, set_opaque_twice]
    · cases h : r.Header <;>
        simp [BulkUpsertSecurityRuleMapping.WithOpaqueID, h, set_opaque_twice]


theorem mem_addedUnder (h : GoMap String) (kv : String × String) (hkv : kv ∈ h) :
    kv.2 ∈ addedUnder h (CanonicalMIMEHeaderKey kv.1) := by
  unfold addedUnder
  exact List.mem_map.2 ⟨kv, List.mem_filter.2 ⟨hkv, by simp⟩, rfl⟩

theorem headersAdded_fold (h : GoMap String) (before : Option Header) :
    HeadersAdded h before (some (addEach h (before.getD []))) := by
  unfold addEach
  refine ⟨_, rfl, fun c => MapValues_addEach h _ c, fun kv hkv => ?_, ?_⟩
  · rw [MapValues_addEach]
    exact List.mem_append_right _ (mem_addedUnder h kv hkv)
  · rw [headerValueCount_addEach]
    cases before <;> rfl

theorem create_withHeader_eq (h : GoMap String) (r : CreateSecurityRoleMappingRequest) :
    CreateSecurityRoleMapping.WithHeader h r =
      { r with Header := some (addEach h (r.Header.getD [])) } := by
  cases hr : r.Header <;> simp [CreateSecurityRoleMapping.WithHeader, addEach, hr]

theorem get_withHeader_eq (h : GoMap String) (r : GetSecurityRoleMappingRequest) :
    GetSecurityRoleMapping.WithHeader h r =
      { r with Header := some (addEach h (r.Header.getD [])) } := by
  cases hr : r.Header <;> simp [GetSecurityRoleMapping.WithHeader, addEach, hr]

theorem patch_withHeader_eq (h : GoMap String) (r : PatchSecurityRoleMappingRequest) :
    PatchSecurityRoleMapping.WithHeader h r =
      { r with Header := some (addEach h (r.Header.getD [])) } := by
  cases hr : r.Header <;> simp [PatchSecurityRoleMapping.WithHeader, addEach, hr]

theorem bulk_withHeader_eq (h : GoMap String) (r : BulkUpsertSecurityRuleMappingRequest) :
    BulkUpsertSecurityRuleMapping.WithHeader h r =
      { r with Header := some (addEach h (r.Header.getD [])) } := by
  cases hr : r.Header <;> simp [BulkUpsertSecurityRuleMapping.WithHeader, addEach, hr]

theorem headersAdded_twice (h h2 : GoMap String) (a b c : Option Header)
    (h1 : HeadersAdded h a b) (h3 : HeadersAdded h2 b c) :
    (∀ k, MapValues (c.getD []) k = MapValues (a.getD []) k ++ addedUnder h k ++ addedUnder h2 k) ∧
    headerValueCount c = headerValueCount a + h.length + h2.length := by
  obtain ⟨hb, rfl, hbv, _, hbc⟩ := h1
  obtain ⟨hc, rfl, hcv, _, hcc⟩ := h3
  refine ⟨fun k => ?_, by omega⟩
  simp only [Option.getD_some] at hcv ⊢
  rw [hcv, hbv]

/-- C9: for each of the four endpoints and every map `h`, `WithHeader(h)`
changes nothing of the request but `Header`, and there (a nil `Header`
counting as empty) every key keeps its previous values in their order,
followed by the values of `h` whose key has that key as canonical form; each
value of `h` is found under the canonical form of its key and the number of
header values grows by exactly the number of entries of `h`. Applying the
option a second time, with the same map visited in the same or in another
order `h2`, adds the values once more. -/
theorem withHeader_appends (h h2 : GoMap String) :
    (∀ r : CreateSecurityRoleMappingRequest,
      CreateSecurityRoleMapping.WithHeader h r =
        { r with Header := (CreateSecurityRoleMapping.WithHeader h r).Header } ∧
      HeadersAdded h r.Header (CreateSecurityRoleMapping.WithHeader h r).Header ∧
      (∀ k, MapValues ((CreateSecurityRoleMapping.WithHeader h2
            (CreateSecurityRoleMapping.WithHeader h r)).Header.getD []) k =
          MapValues (r.Header.getD []) k ++ addedUnder h k ++ addedUnder h2 k) ∧
      headerValueCount (CreateSecurityRoleMapping.WithHeader h2
          (CreateSecurityRoleMapping.WithHeader h r)).Header =
        headerValueCount r.Header + h.length + h2.length) ∧
    (∀ r : GetSecurityRoleMappingRequest,
      GetSecurityRoleMapping.WithHeader h r =
        { r with Header := (GetSecurityRoleMapping.WithHeader h r).Header } ∧
      HeadersAdded h r.Header (GetSecurityRoleMapping.WithHeader h r).Header ∧
      (∀ k, MapValues ((GetSecurityRoleMapping.WithHeader h2
            (GetSecurityRoleMapping.WithHeader h r)).Header.getD []) k =
          MapValues (r.Header.getD []) k ++ addedUnder h k ++ addedUnder h2 k) ∧
      headerValueCount (GetSecurityRoleMapping.WithHeader h2
          (GetSecurityRoleMapping.WithHeader h r)).Header =
        headerValueCount r.Header + h.length + h2.length) ∧
    (∀ r : PatchSecurityRoleMappingRequest,
      PatchSecurityRoleMapping.WithHeader h r =
        { r with Header := (PatchSecurityRoleMapping.WithHeader h r).Header } ∧
      HeadersAdded h r.Header (PatchSecurityRoleMapping.WithHeader h r).Header ∧
      (∀ k, MapValues ((PatchSecurityRoleMapping.WithHeader h2
            (PatchSecurityRoleMapping.WithHeader h r)).Header.getD []) k =
          MapValues (r.Header.getD []) k ++ addedUnder h k ++ addedUnder h2 k) ∧
      headerValueCount (PatchSecurityRoleMapping.WithHeader h2
          (PatchSecurityRoleMapping.WithHeader h r)).Header =
        headerValueCount r.Header + h.length + h2.length) ∧
    (∀ r : BulkUpsertSecurityRuleMappingRequest,
      BulkUpsertSecurityRuleMapping.WithHeader h r =
        { r with Header := (BulkUpsertSecurityRuleMapping.WithHeader h r).Header } ∧
      HeadersAdded h r.Header (BulkUpsertSecurityRuleMapping.WithHeader h r).Header ∧
      (∀ k, MapValues ((BulkUpsertSecurityRuleMapping.WithHeader h2
            (BulkUpsertSecurityRuleMapping.WithHeader h r)).Header.getD []) k =
          MapValues (r.Header.getD []) k ++ addedUnder h k ++ addedUnder h2 k) ∧
      headerValueCount (BulkUpsertSecurityRuleMapping.WithHeader h2
          (BulkUpsertSecurityRuleMapping.WithHeader h r)).Header =
        headerValueCount r.Header + h.length + h2.length) := by
  refine ⟨fun r => ?_, fun r => ?_, fun r => ?_, fun r => ?_⟩
  · have e1 := create_withHeader_eq h r
    have e2 := create_withHeader_eq h2 (CreateSecurityRoleMapping.WithHeader h r)
    have a1 : HeadersAdded h r.Header (CreateSecurityRoleMapping.WithHeader h r).Header := by
      rw [e1]; exact headersAdded_fold h r.Header
    have a2 : HeadersAdded h2 (CreateSecurityRoleMapping.WithHeader h r).Header
        (CreateSecurityRoleMapping.WithHeader h2
          (CreateSecurityRoleMapping.WithHeader h r)).Header := by
      rw [e2]; exact headersAdded_fold h2 _
    exact ⟨by rw [e1], a1, headersAdded_twice h h2 _ _ _ a1 a2⟩
  · have e1 := get_withHeader_eq h r
    have e2 := get_withHeader_eq h2 (GetSecurityRoleMapping.WithHeader h r)
    have a1 : HeadersAdded h r.Header (GetSecurityRoleMapping.WithHeader h r).Header := by
      rw [e1]; exact headersAdded_fold h r.Header
    have a2 : HeadersAdded h2 (GetSecurityRoleMapping.WithHeader h r).Header
        (GetSecurityRoleMapping.WithHeader h2
          (GetSecurityRoleMapping.WithHeader h r)).Header := by
      rw [e2]; exact headersAdded_fold h2 _
    exact ⟨by rw [e1], a1, headersAdded_twice h h2 _ _ _ a1 a2⟩
  · have e1 := patch_withHeader_eq h r
    have e2 := patch_withHeader_eq h2 (PatchSecurityRoleMapping.WithHeader h r)
    have a1 : HeadersAdded h r.Header (PatchSecurityRoleMapping.WithHeader h r).Header := by
      rw [e1]; exact headersAdded_fold h r.Header
    have a2 : HeadersAdded h2 (PatchSecurityRoleMapping.WithHeader h r).Header
        (PatchSecurityRoleMapping.WithHeader h2
          (PatchSecurityRoleMapping.WithHeader h r)).Header := by
      rw [e2]; exact headersAdded_fold h2 _
    exact ⟨by rw [e1], a1, headersAdded_twice h h2 _ _ _ a1 a2⟩
  · have e1 := bulk_withHeader_eq h r
    have e2 := bulk_withHeader_eq h2 (BulkUpsertSecurityRuleMapping.WithHeader h r)
    have a1 : HeadersAdded h r.Header (BulkUpsertSecurityRuleMapping.WithHeader h r).Header := by
      rw [e1]; exact headersAdded_fold h r.Header
    have a2 : HeadersAdded h2 (BulkUpsertSecurityRuleMapping.WithHeader h r).Header
        (BulkUpsertSecurityRuleMapping.WithHeader h2
          (BulkUpsertSecurityRuleMapping.WithHeader h r)).Header := by
      rw [e2]; exact headersAdded_fold h2 _
    exact ⟨by rw [e1], a1, headersAdded_twice h h2 _ _ _ a1 a2⟩


theorem bulk_Do_name (r : BulkUpsertSecurityRuleMappingRequest) (n : String)
    (ctx : Option Context) (ro : GoMap String → GoMap String) :
    ({ r with Name := n } : BulkUpsertSecurityRuleMappingRequest).Do ctx ro = r.Do ctx ro := rfl

theorem options_keep_name
    (o : List (BulkUpsertSecurityRuleMappingRequest → BulkUpsertSecurityRuleMappingRequest))
    (ho : ∀ f ∈ o, KeepsName f) (r : BulkUpsertSecurityRuleMappingRequest) (n : String) :
    o.foldl (fun r f => f r) { r with Name := n } =
      { o.foldl (fun r f => f r) r with Name := n } := by
  induction o generalizing r with
  | nil => rfl
  | cons f o ih =>
    simp only [List.foldl_cons]
    rw [ho f (by simp) r n]
    exact ih (fun g hg => ho g (by simp [hg])) (f r)

theorem withOpaqueID_keepsName (s : String) :
    KeepsName (BulkUpsertSecurityRuleMapping.WithOpaqueID s) := by
  intro r n
  cases h : r.Header <;> simp [BulkUpsertSecurityRuleMapping.WithOpaqueID, h]

theorem withHeader_keepsName (h : GoMap String) :
    KeepsName (BulkUpsertSecurityRuleMapping.WithHeader h) := by
  intro r n
  cases hr : r.Header <;> simp [BulkUpsertSecurityRuleMapping.WithHeader, hr]

/-- C10, as the code has it: the bulk-upsert `Do` ignores `Name`. Two requests
that differ only in `Name` make `Do` behave the same at every step, the path
handed to `newRequest` being the bare `/_plugins/_security/api/rolesmapping/`.
The function built by `newBulkUpsertSecurityRuleMappingFunc` applies the
options to the request made of `name` and `body` and runs `Do` on the result,
so that it calls `newRequest` with `PATCH`, the bare base path and the body of
that request. Without options, and with options that neither read nor write
`Name`, which all seven `With...` options of the package are, `name` stays in
the field `Name` and the function behaves the same for any two names. -/
theorem bulk_upsert_ignores_name (n₁ n₂ : String) (body : Option Reader)
    (ctx : Option Context) (ro : GoMap String → GoMap String) :
    (∀ r : BulkUpsertSecurityRuleMappingRequest,
      ({ r with Name := n₁ } : BulkUpsertSecurityRuleMappingRequest).Do ctx ro =
        ({ r with Name := n₂ } : BulkUpsertSecurityRuleMappingRequest).Do ctx ro ∧
      (({ r with Name := n₁ } : BulkUpsertSecurityRuleMappingRequest).Do ctx ro).newRequestArgs =
        some ("PATCH", "/_plugins/_security/api/rolesmapping/", r.Body)) ∧
    (∀ o : List (BulkUpsertSecurityRuleMappingRequest → BulkUpsertSecurityRuleMappingRequest),
      newBulkUpsertSecurityRuleMappingFunc n₁ body o ro =
        (o.foldl (fun r f => f r)
          ({ Name := n₁, Body := body } : BulkUpsertSecurityRuleMappingRequest)).Do
          (o.foldl (fun r f => f r)
            ({ Name := n₁, Body := body } : BulkUpsertSecurityRuleMappingRequest)).ctx ro ∧
      (newBulkUpsertSecurityRuleMappingFunc n₁ body o ro).newRequestArgs =
        some ("PATCH", "/_plugins/_security/api/rolesmapping/",
          (o.foldl (fun r f => f r)
            ({ Name := n₁, Body := body } : BulkUpsertSecurityRuleMappingRequest)).Body)) ∧
    (newBulkUpsertSecurityRuleMappingFunc n₁ body [] ro =
        newBulkUpsertSecurityRuleMappingFunc n₂ body [] ro ∧
      (newBulkUpsertSecurityRuleMappingFunc n₁ body [] ro).newRequestArgs =
        some ("PATCH", "/_plugins/_security/api/rolesmapping/", body)) ∧
    (∀ o : List (BulkUpsertSecurityRuleMappingRequest → BulkUpsertSecurityRuleMappingRequest),
      (∀ f ∈ o, KeepsName f) →
      (o.foldl (fun r f => f r)
        ({ Name := n₁, Body := body } : BulkUpsertSecurityRuleMappingRequest)).Name = n₁ ∧
      newBulkUpsertSecurityRuleMappingFunc n₁ body o ro =
        newBulkUpsertSecurityRuleMappingFunc n₂ body o ro) ∧
    ((∀ v, KeepsName (BulkUpsertSecurityRuleMapping.WithContext v)) ∧
      KeepsName BulkUpsertSecurityRuleMapping.WithPretty ∧
      KeepsName BulkUpsertSecurityRuleMapping.WithHuman ∧
      KeepsName BulkUpsertSecurityRuleMapping.WithErrorTrace ∧
      (∀ v, KeepsName (BulkUpsertSecurityRuleMapping.WithFilterPath v)) ∧
      (∀ h, KeepsName (BulkUpsertSecurityRuleMapping.WithHeader h)) ∧
      (∀ s, KeepsName (BulkUpsertSecurityRuleMapping.WithOpaqueID s))) := by
  refine ⟨fun r => ⟨rfl, rfl⟩, fun o => ⟨rfl, rfl⟩, ⟨rfl, rfl⟩, fun o ho => ?_,
    fun v r n => rfl, fun r n => rfl, fun r n => rfl, fun r n => rfl, fun v r n => rfl,
    withHeader_keepsName, withOpaqueID_keepsName⟩
  have h1 := options_keep_name o ho { Name := n₂, Body := body } n₁
  have e : ({ ({ Name := n₂, Body := body } : BulkUpsertSecurityRuleMappingRequest) with
      Name := n₁ } : BulkUpsertSecurityRuleMappingRequest) = { Name := n₁, Body := body } := rfl
  rw [e] at h1
  refine ⟨by rw [h1], ?_⟩
  unfold newBulkUpsertSecurityRuleMappingFunc
  simp only
  rw [h1]
  rfl

/-- C10 at a concrete input: the names `all_access` and `readall`, with the
options `WithOpaqueID`, `WithHeader` and `WithPretty`. -/
theorem bulk_upsert_ignores_name_witness :
    (∀ f ∈ [BulkUpsertSecurityRuleMapping.WithOpaqueID "7",
            BulkUpsertSecurityRuleMapping.WithHeader [("accept", "a/b")],
            BulkUpsertSecurityRuleMapping.WithPretty], KeepsName f) ∧
    ([BulkUpsertSecurityRuleMapping.WithOpaqueID "7",
      BulkUpsertSecurityRuleMapping.WithHeader [("accept", "a/b")],
      BulkUpsertSecurityRuleMapping.WithPretty].foldl (fun r f => f r)
        ({ Name := "all_access", Body := some { data := "[]" } } :
          BulkUpsertSecurityRuleMappingRequest)).Name = "all_access" ∧
    newBulkUpsertSecurityRuleMappingFunc "all_access" (some { data := "[]" })
        [BulkUpsertSecurityRuleMapping.WithOpaqueID "7",
         BulkUpsertSecurityRuleMapping.WithHeader [("accept", "a/b")],
         BulkUpsertSecurityRuleMapping.WithPretty] id =
      newBulkUpsertSecurityRuleMappingFunc "readall" (some { data := "[]" })
        [BulkUpsertSecurityRuleMapping.WithOpaqueID "7",
         BulkUpsertSecurityRuleMapping.WithHeader [("accept", "a/b")],
         BulkUpsertSecurityRuleMapping.WithPretty] id :=
  have hk : ∀ f ∈ [BulkUpsertSecurityRuleMapping.WithOpaqueID "7",
      BulkUpsertSecurityRuleMapping.WithHeader [("accept", "a/b")],
      BulkUpsertSecurityRuleMapping.WithPretty], KeepsName f := by
    intro f hf
    simp only [List.mem_cons, List.mem_singleton, List.not_mem_nil, or_false] at hf
    rcases hf with rfl | rfl | rfl
    · exact withOpaqueID_keepsName "7"
    · exact withHeader_keepsName _
    · exact fun r n => rfl
  ⟨hk, ((bulk_upsert_ignores_name "all_access" "readall" (some { data := "[]" }) none id).2.2.2.1
    _ hk)⟩

/-- C10 as stated fails: the options are functions written by the caller, and
one that copies `Name` into a header makes the name argument reach the headers
of the request handed to the transport: with the names `all_access` and
`readall` the function hands on different headers. -/
theorem name_reaches_headers_through_an_option :
    ((newBulkUpsertSecurityRuleMappingFunc "all_access" none [copyNameToHeader] id).afterNewRequest
        (.ok { Method := "PATCH",
               URL := { Path := "/_plugins/_security/api/rolesmapping/", RawQuery := "" },
               Header := none, Body := none, ctx := none })).performArg.map Request.Header =
      some (some [("X-Name", ["all_access"])]) ∧
    ((newBulkUpsertSecurityRuleMappingFunc "readall" none [copyNameToHeader] id).afterNewRequest
        (.ok { Method := "PATCH",
               URL := { Path := "/_plugins/_security/api/rolesmapping/", RawQuery := "" },
               Header := none, Body := none, ctx := none })).performArg.map Request.Header =
      some (some [("X-Name", ["readall"])]) ∧
    ((newBulkUpsertSecurityRuleMappingFunc "all_access" none [copyNameToHeader] id).afterNewRequest
        (.ok { Method := "PATCH",
               URL := { Path := "/_plugins/_security/api/rolesmapping/", RawQuery := "" },
               Header := none, Body := none, ctx := none })).performArg ≠
    ((newBulkUpsertSecurityRuleMappingFunc "readall" none [copyNameToHeader] id).afterNewRequest
        (.ok { Method := "PATCH",
               URL := { Path := "/_plugins/_security/api/rolesmapping/", RawQuery := "" },
               Header := none, Body := none, ctx := none })).performArg := by
  refine ⟨by decide, by decide, by decide⟩


end OpenSearchAPI
